import Mathlib

/-!
A verification development for the parallel video processor repository.

The Python source is shallowly embedded:
* Python strings are modelled as `List Char` (with `String` wrappers at the
  data-model level); Python floats are modelled as exact rationals `ℚ`;
  Python ints as `ℤ`/`ℕ`.
* `dict` values with a `.get(k, default)` read pattern are modelled as total
  functions with the corresponding default; `dict` key-presence is modelled by
  `Option`.
* Wall-clock timestamps (`datetime.now()`), file paths and subprocess side
  effects carry no information relevant to the verified properties and are
  omitted from the records.
-/

/-- The character for decimal digit `d` (`'0'`–`'9'` when `d < 10`). -/
def digitCh (d : ℕ) : Char := Char.ofNat (48 + d)

/-- Little-endian digit characters of `n`; `fuel`-structured so the kernel can
evaluate it (callers pass `fuel ≥ n`). -/
def natCharsAux : ℕ → ℕ → List Char
  | 0, _ => []
  | fuel + 1, n => if n = 0 then [] else digitCh (n % 10) :: natCharsAux fuel (n / 10)

/-- Decimal rendering of a natural number, mirroring Python `str(n)`. -/
def natChars (n : ℕ) : List Char :=
  if n = 0 then [digitCh 0] else (natCharsAux n n).reverse

/-- Left-pad a character list with `'0'` to width `w`. -/
def padZeros (w : ℕ) (l : List Char) : List Char :=
  List.replicate (w - l.length) (digitCh 0) ++ l

/-- Zero-padded decimal rendering of an integer, mirroring Python's
`f"{i:0wd}"` format (the sign counts toward the width). -/
def intChars (i : ℤ) (w : ℕ) : List Char :=
  if i < 0 then '-' :: padZeros (w - 1) (natChars i.natAbs) else padZeros w (natChars i.toNat)

/-- Rendering of a nonnegative rational number of seconds, mirroring Python's
`f"{q:06.3f}"`: round to 3 decimals, at least two integer digits, exactly
three fractional digits.  (The Python source only ever formats values in
`[0, 60)`, where this model is exact.) -/
def fmtSec (q : ℚ) : List Char :=
  let n := (round (q * 1000)).toNat
  padZeros 2 (natChars (n / 1000)) ++ '.' :: padZeros 3 (natChars (n % 1000))

/-- The numeric value of a decimal digit character, `none` otherwise. -/
def charDigit (c : Char) : Option ℕ :=
  if 48 ≤ c.toNat ∧ c.toNat ≤ 57 then some (c.toNat - 48) else none

/-- Fold an all-digit character list into a natural number (most significant
digit first); fails on any non-digit. -/
def parseDigits : List Char → ℕ → Option ℕ
  | [], acc => some acc
  | c :: rest, acc =>
    match charDigit c with
    | some d => parseDigits rest (acc * 10 + d)
    | none => none

/-- Python `int(s)` on a string: optional sign followed by decimal digits.
(Whitespace tolerance and `_` separators of CPython are not modelled; no
caller of `add_time_offset` produces them.) -/
def pyInt (l : List Char) : Option ℤ :=
  match l with
  | [] => none
  | c :: rest =>
    if c = '-' then (if rest = [] then none else (parseDigits rest 0).map (fun n => -(n : ℤ)))
    else if c = '+' then (if rest = [] then none else (parseDigits rest 0).map (fun n => (n : ℤ)))
    else (parseDigits (c :: rest) 0).map (fun n => (n : ℤ))

/-- Python `s.split(sep)` for a single-character separator, on `List Char`. -/
def splitChar (sep : Char) : List Char → List (List Char)
  | [] => [[]]
  | c :: rest =>
    match splitChar sep rest with
    | [] => [[]]
    | r :: rs => if c = sep then [] :: r :: rs else (c :: r) :: rs

/-- Unsigned decimal-fraction part of Python `float(s)`: `digits`,
`digits.digits`, `digits.` or `.digits`.  (Exponents and `inf`/`nan` are not
modelled; no caller of `add_time_offset` produces them.) -/
def pyFloatCore (l : List Char) : Option ℚ :=
  match splitChar '.' l with
  | [ip] =>
    if ip = [] then none else (parseDigits ip 0).map (fun n => (n : ℚ))
  | [ip, fp] =>
    if ip = [] ∧ fp = [] then none
    else
      match parseDigits ip 0, parseDigits fp 0 with
      | some a, some b => some ((a : ℚ) + (b : ℚ) / (10 : ℚ) ^ fp.length)
      | _, _ => none
  | _ => none

/-- Python `float(s)`: optional sign followed by a decimal fraction. -/
def pyFloat (l : List Char) : Option ℚ :=
  match l with
  | [] => none
  | c :: rest =>
    if c = '-' then (pyFloatCore rest).map (fun q => -q)
    else if c = '+' then pyFloatCore rest
    else pyFloatCore (c :: rest)

/-- The parsing phase of `add_time_offset` (parallel_processor.py:138-141):
split on `':'`, `int` the first part, `float` the second part, ignore the
rest; any failure is the `except` path. -/
def parseTs (l : List Char) : Option (ℤ × ℚ) :=
  match splitChar ':' l with
  | p0 :: p1 :: _ =>
    match pyInt p0, pyFloat p1 with
    | some m, some s => some (m, s)
    | _, _ => none
  | _ => none

/-- `add_time_offset` (parallel_processor.py:132-150): add `offset_seconds` to
an `MM:SS.mmm` timestamp and re-render it; empty or unparseable input is
returned unchanged (the `except` path). -/
def add_time_offset (timestamp : List Char) (offset_seconds : ℚ) : List Char :=
  if timestamp = [] then timestamp
  else
    match parseTs timestamp with
    | some (m, s) =>
      let total := (m : ℚ) * 60 + s + offset_seconds
      intChars ⌊total / 60⌋ 2 ++ ':' :: fmtSec (total - 60 * (⌊total / 60⌋ : ℚ))
    | none => timestamp

/-- `add_time_offset` lifted to `String`. -/
def addTimeOffsetStr (timestamp : String) (offset_seconds : ℚ) : String :=
  String.mk (add_time_offset timestamp.data offset_seconds)

/-- The time value denoted by a parseable timestamp string: minutes times 60
plus seconds. -/
def tsVal (l : List Char) : Option ℚ :=
  (parseTs l).map fun p => (p.1 : ℚ) * 60 + p.2

/-- The canonical `MM:SS.mmm` rendering of `m` minutes plus `ms` milliseconds. -/
def mmssChars (m ms : ℕ) : List Char :=
  padZeros 2 (natChars m) ++
    ':' :: (padZeros 2 (natChars (ms / 1000)) ++ '.' :: padZeros 3 (natChars (ms % 1000)))

/-! ### Printer/parser round-trip lemmas for the timestamp format -/

theorem charDigit_digitCh {d : ℕ} (h : d < 10) : charDigit (digitCh d) = some d := by
  interval_cases d <;> decide

theorem digitCh_ne {d : ℕ} (h : d < 10) :
    digitCh d ≠ ':' ∧ digitCh d ≠ '.' ∧ digitCh d ≠ '-' ∧ digitCh d ≠ '+' := by
  interval_cases d <;> decide

theorem mem_natCharsAux {c : Char} :
    ∀ {fuel n : ℕ}, c ∈ natCharsAux fuel n → ∃ d, d < 10 ∧ c = digitCh d := by
  intro fuel
  induction fuel with
  | zero => intro n h; simp [natCharsAux] at h
  | succ fuel ih =>
    intro n h
    rw [natCharsAux] at h
    by_cases hn : n = 0
    · simp [hn] at h
    · rw [if_neg hn] at h
      rcases List.mem_cons.mp h with h | h
      · exact ⟨n % 10, Nat.mod_lt _ (by norm_num), h⟩
      · exact ih h

theorem mem_natChars {c : Char} {n : ℕ} (h : c ∈ natChars n) :
    ∃ d, d < 10 ∧ c = digitCh d := by
  rw [natChars] at h
  by_cases hn : n = 0
  · rw [if_pos hn] at h
    simp at h
    exact ⟨0, by norm_num, h⟩
  · rw [if_neg hn, List.mem_reverse] at h
    exact mem_natCharsAux h

theorem mem_padZeros {c : Char} {w : ℕ} {l : List Char} (h : c ∈ padZeros w l) :
    c = digitCh 0 ∨ c ∈ l := by
  rw [padZeros, List.mem_append] at h
  rcases h with h | h
  · exact Or.inl (List.eq_of_mem_replicate h)
  · exact Or.inr h

theorem natChars_ne_nil (n : ℕ) : natChars n ≠ [] := by
  rw [natChars]
  by_cases hn : n = 0
  · simp [hn]
  · rw [if_neg hn]
    intro hcon
    rw [List.reverse_eq_nil_iff] at hcon
    cases n with
    | zero => exact hn rfl
    | succ m =>
      rw [natCharsAux, if_neg hn] at hcon
      exact List.cons_ne_nil _ _ hcon

theorem padZeros_ne_nil {w : ℕ} {l : List Char} (h : l ≠ []) : padZeros w l ≠ [] := by
  rw [padZeros]
  intro hcon
  rcases List.append_eq_nil.mp hcon with ⟨_, h2⟩
  exact h h2

theorem parseDigits_append (l₁ l₂ : List Char) (acc : ℕ) :
    parseDigits (l₁ ++ l₂) acc =
      match parseDigits l₁ acc with
      | some a => parseDigits l₂ a
      | none => none := by
  induction l₁ generalizing acc with
  | nil => simp [parseDigits]
  | cons c rest ih =>
    rw [List.cons_append, parseDigits, parseDigits]
    cases charDigit c with
    | none => rfl
    | some d => exact ih _

theorem parseDigits_single {c : Char} {d : ℕ} (h : charDigit c = some d) (acc : ℕ) :
    parseDigits [c] acc = some (acc * 10 + d) := by
  simp [parseDigits, h]

theorem parseDigits_natCharsAux :
    ∀ fuel n acc, n ≤ fuel →
      parseDigits (natCharsAux fuel n).reverse acc =
        some (acc * 10 ^ (natCharsAux fuel n).length + n) := by
  intro fuel
  induction fuel with
  | zero =>
    intro n acc h
    interval_cases n
    simp [natCharsAux, parseDigits]
  | succ fuel ih =>
    intro n acc h
    by_cases hn : n = 0
    · simp [natCharsAux, hn, parseDigits]
    · rw [natCharsAux, if_neg hn, List.reverse_cons, parseDigits_append]
      have hdiv : n / 10 ≤ fuel := by omega
      rw [ih (n / 10) acc hdiv]
      have hmod : n % 10 < 10 := Nat.mod_lt _ (by norm_num)
      show parseDigits [digitCh (n % 10)] _ = _
      rw [parseDigits_single (charDigit_digitCh hmod)]
      congr 1
      have hnm : 10 * (n / 10) + n % 10 = n := Nat.div_add_mod n 10
      simp only [List.length_cons]
      ring_nf
      omega

theorem parseDigits_natChars (n : ℕ) : parseDigits (natChars n) 0 = some n := by
  rw [natChars]
  by_cases hn : n = 0
  · simp [hn, parseDigits, charDigit, digitCh]
  · rw [if_neg hn, parseDigits_natCharsAux n n 0 le_rfl]
    simp

theorem parseDigits_replicate_zero (k : ℕ) :
    parseDigits (List.replicate k (digitCh 0)) 0 = some 0 := by
  induction k with
  | zero => simp [parseDigits]
  | succ k ih =>
    rw [List.replicate_succ, parseDigits]
    have : charDigit (digitCh 0) = some 0 := charDigit_digitCh (by norm_num)
    rw [this]
    simpa using ih

theorem parseDigits_padZeros {l : List Char} {n : ℕ} (w : ℕ)
    (h : parseDigits l 0 = some n) : parseDigits (padZeros w l) 0 = some n := by
  rw [padZeros, parseDigits_append, parseDigits_replicate_zero]
  simpa using h

theorem padZeros_natChars_length {n k : ℕ} (hk : 1 ≤ k) (hn : n < 10 ^ k) :
    (padZeros k (natChars n)).length = k := by
  have hlen : (natChars n).length ≤ k := by
    rw [natChars]
    by_cases h0 : n = 0
    · simpa [h0] using hk
    · rw [if_neg h0, List.length_reverse]
      clear h0
      have : ∀ fuel m j, m < 10 ^ j → (natCharsAux fuel m).length ≤ j := by
        intro fuel
        induction fuel with
        | zero => intro m j _; simp [natCharsAux]
        | succ fuel ih =>
          intro m j hm
          by_cases hm0 : m = 0
          · simp [natCharsAux, hm0]
          · rw [natCharsAux, if_neg hm0, List.length_cons]
            have hj : j ≠ 0 := by
              intro hj0
              rw [hj0, pow_zero] at hm
              omega
            obtain ⟨j', rfl⟩ := Nat.exists_eq_succ_of_ne_zero hj
            have : m / 10 < 10 ^ j' := by
              rw [Nat.div_lt_iff_lt_mul (by norm_num)]
              calc m < 10 ^ (j' + 1) := hm
              _ = 10 ^ j' * 10 := by ring
            exact Nat.succ_le_succ (ih (m / 10) j' this)
      exact this n n k hn
  rw [padZeros, List.length_append, List.length_replicate]
  omega

theorem splitChar_ne_nil (sep : Char) (l : List Char) : splitChar sep l ≠ [] := by
  cases l with
  | nil => simp [splitChar]
  | cons c rest =>
    rw [splitChar]
    rcases h : splitChar sep rest with _ | ⟨r, rs⟩
    · simp
    · by_cases hc : c = sep <;> simp [hc]

theorem splitChar_not_mem {sep : Char} {l : List Char} (h : sep ∉ l) :
    splitChar sep l = [l] := by
  induction l with
  | nil => rfl
  | cons c rest ih =>
    have hc : c ≠ sep := fun hcon => h (by simp [hcon])
    have hrest : sep ∉ rest := fun hcon => h (List.mem_cons_of_mem _ hcon)
    simp [splitChar, ih hrest, hc]

theorem splitChar_append {sep : Char} {l₁ : List Char} (l₂ : List Char) (h : sep ∉ l₁) :
    splitChar sep (l₁ ++ sep :: l₂) = l₁ :: splitChar sep l₂ := by
  induction l₁ with
  | nil =>
    rcases hs : splitChar sep l₂ with _ | ⟨r, rs⟩
    · exact absurd hs (splitChar_ne_nil sep l₂)
    · simp [splitChar, hs]
  | cons c rest ih =>
    have hc : c ≠ sep := fun hcon => h (by simp [hcon])
    have hrest : sep ∉ rest := fun hcon => h (List.mem_cons_of_mem _ hcon)
    rw [List.cons_append, splitChar, ih hrest]
    simp [hc]

theorem colon_not_mem_padZeros_natChars {w n : ℕ} : ':' ∉ padZeros w (natChars n) := by
  intro h
  rcases mem_padZeros h with h | h
  · exact (digitCh_ne (by norm_num)).1 h.symm
  · obtain ⟨d, hd, hc⟩ := mem_natChars h
    exact (digitCh_ne hd).1 hc.symm

theorem dot_not_mem_padZeros_natChars {w n : ℕ} : '.' ∉ padZeros w (natChars n) := by
  intro h
  rcases mem_padZeros h with h | h
  · exact (digitCh_ne (by norm_num)).2.1 h.symm
  · obtain ⟨d, hd, hc⟩ := mem_natChars h
    exact (digitCh_ne hd).2.1 hc.symm

theorem colon_not_mem_intChars {i : ℤ} {w : ℕ} : ':' ∉ intChars i w := by
  rw [intChars]
  by_cases hi : i < 0
  · rw [if_pos hi]
    intro h
    rcases List.mem_cons.mp h with h | h
    · exact absurd h.symm (by decide)
    · exact colon_not_mem_padZeros_natChars h
  · rw [if_neg hi]
    exact colon_not_mem_padZeros_natChars

theorem colon_not_mem_fmtSec {q : ℚ} : ':' ∉ fmtSec q := by
  rw [fmtSec]
  intro h
  rcases List.mem_append.mp h with h | h
  · exact colon_not_mem_padZeros_natChars h
  · rcases List.mem_cons.mp h with h | h
    · exact absurd h.symm (by decide)
    · exact colon_not_mem_padZeros_natChars h

theorem pyInt_padZeros_natChars (w n : ℕ) :
    pyInt (padZeros w (natChars n)) = some (n : ℤ) := by
  have hne : padZeros w (natChars n) ≠ [] := padZeros_ne_nil (natChars_ne_nil n)
  rcases hl : padZeros w (natChars n) with _ | ⟨c, rest⟩
  · exact absurd hl hne
  · have hcmem : c ∈ padZeros w (natChars n) := by rw [hl]; exact List.mem_cons_self _ _
    have hdig : ∃ d, d < 10 ∧ c = digitCh d := by
      rcases mem_padZeros hcmem with h | h
      · exact ⟨0, by norm_num, h⟩
      · exact mem_natChars h
    obtain ⟨d, hd, rfl⟩ := hdig
    rw [pyInt, if_neg (digitCh_ne hd).2.2.1, if_neg (digitCh_ne hd).2.2.2, ← hl,
      parseDigits_padZeros w (parseDigits_natChars n)]
    rfl

theorem pyInt_intChars (i : ℤ) (w : ℕ) : pyInt (intChars i w) = some i := by
  rw [intChars]
  by_cases hi : i < 0
  · rw [if_pos hi]
    have hne : padZeros (w - 1) (natChars i.natAbs) ≠ [] :=
      padZeros_ne_nil (natChars_ne_nil _)
    rw [pyInt, if_pos rfl, if_neg hne,
      parseDigits_padZeros (w - 1) (parseDigits_natChars i.natAbs)]
    have habs : -((i.natAbs : ℤ)) = i := by omega
    show some (-((i.natAbs : ℤ))) = some i
    rw [habs]
  · rw [if_neg hi, pyInt_padZeros_natChars]
    congr 1
    omega

theorem pyFloat_eq_core {c : Char} (rest : List Char) (hd : ∃ d, d < 10 ∧ c = digitCh d) :
    pyFloat (c :: rest) = pyFloatCore (c :: rest) := by
  obtain ⟨d, hdlt, rfl⟩ := hd
  rw [pyFloat, if_neg (digitCh_ne hdlt).2.2.1, if_neg (digitCh_ne hdlt).2.2.2]

theorem div1000_add (n : ℕ) :
    ((n / 1000 : ℕ) : ℚ) + ((n % 1000 : ℕ) : ℚ) / 1000 = (n : ℚ) / 1000 := by
  have h : (1000 : ℚ) * ((n / 1000 : ℕ) : ℚ) + ((n % 1000 : ℕ) : ℚ) = (n : ℚ) := by
    exact_mod_cast congrArg (Nat.cast : ℕ → ℚ) (Nat.div_add_mod n 1000)
  field_simp
  linarith

theorem pyFloatCore_fmt (a b : ℕ) (hb : b < 1000) :
    pyFloatCore (padZeros 2 (natChars a) ++ '.' :: padZeros 3 (natChars b)) =
      some ((a : ℚ) + (b : ℚ) / 1000) := by
  have hsplit : splitChar '.' (padZeros 2 (natChars a) ++ '.' :: padZeros 3 (natChars b)) =
      [padZeros 2 (natChars a), padZeros 3 (natChars b)] := by
    rw [splitChar_append _ dot_not_mem_padZeros_natChars,
      splitChar_not_mem dot_not_mem_padZeros_natChars]
  have hip : padZeros 2 (natChars a) ≠ [] := padZeros_ne_nil (natChars_ne_nil a)
  have hred : pyFloatCore (padZeros 2 (natChars a) ++ '.' :: padZeros 3 (natChars b)) =
      (if padZeros 2 (natChars a) = [] ∧ padZeros 3 (natChars b) = [] then none
       else
        match parseDigits (padZeros 2 (natChars a)) 0, parseDigits (padZeros 3 (natChars b)) 0 with
        | some x, some y => some ((x : ℚ) + (y : ℚ) / (10 : ℚ) ^ (padZeros 3 (natChars b)).length)
        | _, _ => none) := by
    rw [pyFloatCore.eq_def, hsplit]
  rw [hred, if_neg (fun hcon => hip hcon.1), parseDigits_padZeros 2 (parseDigits_natChars a),
    parseDigits_padZeros 3 (parseDigits_natChars b),
    padZeros_natChars_length (by norm_num) (by simpa using hb)]
  show some ((a : ℚ) + (b : ℚ) / (10 : ℚ) ^ (3 : ℕ)) = _
  norm_num

theorem fmtSec_eq (q : ℚ) :
    fmtSec q = padZeros 2 (natChars ((round (q * 1000)).toNat / 1000)) ++
      '.' :: padZeros 3 (natChars ((round (q * 1000)).toNat % 1000)) := rfl

theorem pyFloat_fmtSec (q : ℚ) :
    pyFloat (fmtSec q) = some (((round (q * 1000)).toNat : ℚ) / 1000) := by
  rw [fmtSec_eq]
  rcases hl : padZeros 2 (natChars ((round (q * 1000)).toNat / 1000)) with _ | ⟨c, t⟩
  · exact absurd hl (padZeros_ne_nil (natChars_ne_nil _))
  · have hc : c ∈ padZeros 2 (natChars ((round (q * 1000)).toNat / 1000)) := by
      rw [hl]; exact List.mem_cons_self _ _
    have hd : ∃ d, d < 10 ∧ c = digitCh d := by
      rcases mem_padZeros hc with h | h
      · exact ⟨0, by norm_num, h⟩
      · exact mem_natChars h
    rw [List.cons_append, pyFloat_eq_core _ hd, ← List.cons_append, ← hl,
      pyFloatCore_fmt _ _ (Nat.mod_lt _ (by norm_num)), div1000_add]

theorem parseTs_fmt (M : ℤ) (s : ℚ) :
    parseTs (intChars M 2 ++ ':' :: fmtSec s) =
      some (M, ((round (s * 1000)).toNat : ℚ) / 1000) := by
  have hsplit : splitChar ':' (intChars M 2 ++ ':' :: fmtSec s) = [intChars M 2, fmtSec s] := by
    rw [splitChar_append _ colon_not_mem_intChars, splitChar_not_mem colon_not_mem_fmtSec]
  have hred : parseTs (intChars M 2 ++ ':' :: fmtSec s) =
      (match pyInt (intChars M 2), pyFloat (fmtSec s) with
       | some a, some b => some (a, b)
       | _, _ => none) := by
    rw [parseTs.eq_def, hsplit]
  rw [hred, pyInt_intChars, pyFloat_fmtSec]

theorem parseTs_mmss (m ms : ℕ) :
    parseTs (mmssChars m ms) = some ((m : ℤ), (ms : ℚ) / 1000) := by
  have hnc : ':' ∉ padZeros 2 (natChars (ms / 1000)) ++ '.' :: padZeros 3 (natChars (ms % 1000)) := by
    intro h
    rcases List.mem_append.mp h with h | h
    · exact colon_not_mem_padZeros_natChars h
    · rcases List.mem_cons.mp h with h | h
      · exact absurd h.symm (by decide)
      · exact colon_not_mem_padZeros_natChars h
  have hsplit : splitChar ':' (mmssChars m ms) =
      [padZeros 2 (natChars m),
        padZeros 2 (natChars (ms / 1000)) ++ '.' :: padZeros 3 (natChars (ms % 1000))] := by
    rw [mmssChars, splitChar_append _ colon_not_mem_padZeros_natChars, splitChar_not_mem hnc]
  have hfloat : pyFloat (padZeros 2 (natChars (ms / 1000)) ++
      '.' :: padZeros 3 (natChars (ms % 1000))) = some ((ms : ℚ) / 1000) := by
    rcases hl : padZeros 2 (natChars (ms / 1000)) with _ | ⟨c, t⟩
    · exact absurd hl (padZeros_ne_nil (natChars_ne_nil _))
    · have hc : c ∈ padZeros 2 (natChars (ms / 1000)) := by
        rw [hl]; exact List.mem_cons_self _ _
      have hd : ∃ d, d < 10 ∧ c = digitCh d := by
        rcases mem_padZeros hc with h | h
        · exact ⟨0, by norm_num, h⟩
        · exact mem_natChars h
      rw [List.cons_append, pyFloat_eq_core _ hd, ← List.cons_append, ← hl,
        pyFloatCore_fmt _ _ (Nat.mod_lt _ (by norm_num)), div1000_add]
  have hred : parseTs (mmssChars m ms) =
      (match pyInt (padZeros 2 (natChars m)),
          pyFloat (padZeros 2 (natChars (ms / 1000)) ++
            '.' :: padZeros 3 (natChars (ms % 1000))) with
       | some a, some b => some (a, b)
       | _, _ => none) := by
    rw [parseTs.eq_def, hsplit]
  rw [hred, pyInt_padZeros_natChars, hfloat]

theorem intChars_ne_nil (i : ℤ) (w : ℕ) : intChars i w ≠ [] := by
  rw [intChars]
  by_cases hi : i < 0
  · rw [if_pos hi]; exact List.cons_ne_nil _ _
  · rw [if_neg hi]; exact padZeros_ne_nil (natChars_ne_nil _)

theorem mmssChars_ne_nil (m ms : ℕ) : mmssChars m ms ≠ [] := by
  rw [mmssChars]
  intro hcon
  rcases List.append_eq_nil.mp hcon with ⟨h1, _⟩
  exact padZeros_ne_nil (natChars_ne_nil m) h1

theorem newSeconds_nonneg (total : ℚ) : 0 ≤ total - 60 * (⌊total / 60⌋ : ℚ) := by
  have h := Int.floor_le (total / 60)
  nlinarith

theorem newSeconds_lt (total : ℚ) : total - 60 * (⌊total / 60⌋ : ℚ) < 60 := by
  have h := Int.lt_floor_add_one (total / 60)
  nlinarith

theorem add_time_offset_out {t : List Char} {m : ℤ} {s : ℚ} (off : ℚ) (hne : t ≠ [])
    (ht : parseTs t = some (m, s)) :
    add_time_offset t off =
      intChars ⌊((m : ℚ) * 60 + s + off) / 60⌋ 2 ++
        ':' :: fmtSec ((m : ℚ) * 60 + s + off -
          60 * (⌊((m : ℚ) * 60 + s + off) / 60⌋ : ℚ)) := by
  rw [add_time_offset, if_neg hne, ht]

theorem tsVal_add_of_parse {t : List Char} {m : ℤ} {s : ℚ} (off : ℚ) (hne : t ≠ [])
    (ht : parseTs t = some (m, s)) :
    tsVal (add_time_offset t off) =
      some (((round ((((m : ℚ) * 60 + s + off)) * 1000) : ℤ) : ℚ) / 1000) := by
  rw [add_time_offset_out off hne ht, tsVal, parseTs_fmt, Option.map_some']
  congr 1
  set total := (m : ℚ) * 60 + s + off with htot
  set M := ⌊total / 60⌋ with hM
  have hs0 : 0 ≤ total - 60 * (M : ℚ) := newSeconds_nonneg total
  have hr0 : 0 ≤ round ((total - 60 * (M : ℚ)) * 1000) := by
    rw [round_eq]
    have : (0 : ℚ) ≤ (total - 60 * (M : ℚ)) * 1000 + 1 / 2 := by nlinarith
    exact_mod_cast Int.floor_nonneg.mpr this
  have hcast : (((round ((total - 60 * (M : ℚ)) * 1000)).toNat : ℕ) : ℚ) =
      ((round ((total - 60 * (M : ℚ)) * 1000) : ℤ) : ℚ) := by
    exact_mod_cast congrArg (Int.cast : ℤ → ℚ) (Int.toNat_of_nonneg hr0)
  have hsub : round ((total - 60 * (M : ℚ)) * 1000) = round (total * 1000) - 60000 * M := by
    have heq : (total - 60 * (M : ℚ)) * 1000 = total * 1000 + ((-60000 * M : ℤ) : ℚ) := by
      push_cast
      ring
    rw [heq, round_add_int]
    ring
  show (M : ℚ) * 60 + ((round ((total - 60 * (M : ℚ)) * 1000)).toNat : ℚ) / 1000 =
    ((round (total * 1000) : ℤ) : ℚ) / 1000
  rw [hcast, hsub]
  push_cast
  ring

theorem round3_close (x : ℚ) : |((round (x * 1000) : ℤ) : ℚ) / 1000 - x| ≤ 1 / 2000 := by
  have h := abs_sub_round (x * 1000)
  rw [abs_sub_comm] at h
  have heq : ((round (x * 1000) : ℤ) : ℚ) / 1000 - x =
      (((round (x * 1000) : ℤ) : ℚ) - x * 1000) / 1000 := by ring
  rw [heq, abs_div]
  have h1000 : |(1000 : ℚ)| = 1000 := by norm_num
  rw [h1000]
  linarith

/-- C5: correcting a well-formed `MM:SS.mmm` chunk-local timestamp by an
offset `O ≥ 0` with `add_time_offset` and then applying `add_time_offset`
with `-O` reproduces the original timestamp up to formatting precision: the
final rendered value is within one millisecond (the resolution of the
`MM:SS.mmm` format) of the original, and when `O` is itself a whole number
of milliseconds the original string is reproduced exactly. -/
theorem timestamp_offset_roundtrip (m ms : ℕ) (off : ℚ) (hms : ms < 60000) (hoff : 0 ≤ off) :
    (∃ v, tsVal (add_time_offset (add_time_offset (mmssChars m ms) off) (-off)) = some v ∧
      |v - ((m : ℚ) * 60 + (ms : ℚ) / 1000)| ≤ 1 / 1000) ∧
    (∀ k : ℕ, off = (k : ℚ) / 1000 →
      add_time_offset (add_time_offset (mmssChars m ms) off) (-off) = mmssChars m ms) := by
  have hne0 : mmssChars m ms ≠ [] := mmssChars_ne_nil m ms
  have hp0 : parseTs (mmssChars m ms) = some ((m : ℤ), (ms : ℚ) / 1000) := parseTs_mmss m ms
  set v0 : ℚ := (m : ℚ) * 60 + (ms : ℚ) / 1000 with hv0
  set total1 : ℚ := (((m : ℤ)) : ℚ) * 60 + (ms : ℚ) / 1000 + off with htot1
  have hout1 : add_time_offset (mmssChars m ms) off =
      intChars ⌊total1 / 60⌋ 2 ++ ':' :: fmtSec (total1 - 60 * (⌊total1 / 60⌋ : ℚ)) :=
    add_time_offset_out off hne0 hp0
  set M1 : ℤ := ⌊total1 / 60⌋ with hM1
  set q1 : ℚ := (((round ((total1 - 60 * (M1 : ℚ)) * 1000)).toNat : ℕ) : ℚ) / 1000 with hq1
  have hp1 : parseTs (add_time_offset (mmssChars m ms) off) = some (M1, q1) := by
    rw [hout1]
    exact parseTs_fmt M1 (total1 - 60 * (M1 : ℚ))
  have ht1ne : add_time_offset (mmssChars m ms) off ≠ [] := by
    rw [hout1]
    intro hcon
    exact intChars_ne_nil M1 2 (List.append_eq_nil.mp hcon).1
  have hval1 : tsVal (add_time_offset (mmssChars m ms) off) =
      some (((round (total1 * 1000) : ℤ) : ℚ) / 1000) := tsVal_add_of_parse off hne0 hp0
  have hval1' : tsVal (add_time_offset (mmssChars m ms) off) = some ((M1 : ℚ) * 60 + q1) := by
    rw [tsVal, hp1, Option.map_some']
  have hM1q1 : (M1 : ℚ) * 60 + q1 = ((round (total1 * 1000) : ℤ) : ℚ) / 1000 :=
    Option.some_inj.mp (hval1'.symm.trans hval1)
  have hval2 : tsVal (add_time_offset (add_time_offset (mmssChars m ms) off) (-off)) =
      some (((round (((M1 : ℚ) * 60 + q1 + -off) * 1000) : ℤ) : ℚ) / 1000) :=
    tsVal_add_of_parse (-off) ht1ne hp1
  have htot : total1 = v0 + off := by
    rw [htot1, hv0]
    push_cast
    ring
  constructor
  · refine ⟨_, hval2, ?_⟩
    have h1 : |((round (((M1 : ℚ) * 60 + q1 + -off) * 1000) : ℤ) : ℚ) / 1000 -
        ((M1 : ℚ) * 60 + q1 + -off)| ≤ 1 / 2000 := round3_close _
    have h2 : |((round (total1 * 1000) : ℤ) : ℚ) / 1000 - total1| ≤ 1 / 2000 :=
      round3_close total1
    have hdecomp : ((round (((M1 : ℚ) * 60 + q1 + -off) * 1000) : ℤ) : ℚ) / 1000 - v0 =
        (((round (((M1 : ℚ) * 60 + q1 + -off) * 1000) : ℤ) : ℚ) / 1000 -
          ((M1 : ℚ) * 60 + q1 + -off)) +
        (((round (total1 * 1000) : ℤ) : ℚ) / 1000 - total1) := by
      rw [hM1q1]
      rw [htot]
      ring
    rw [hdecomp]
    have habs := abs_add
      (((round (((M1 : ℚ) * 60 + q1 + -off) * 1000) : ℤ) : ℚ) / 1000 -
        ((M1 : ℚ) * 60 + q1 + -off))
      (((round (total1 * 1000) : ℤ) : ℚ) / 1000 - total1)
    linarith
  · intro k hk
    have hint : round (total1 * 1000) = ((60000 * m + ms + k : ℕ) : ℤ) := by
      have heq : total1 * 1000 = ((60000 * m + ms + k : ℕ) : ℚ) := by
        rw [htot1, hk]
        push_cast
        ring
      rw [heq, round_natCast]
    have hr3 : ((round (total1 * 1000) : ℤ) : ℚ) / 1000 = total1 := by
      rw [hint, htot1, hk]
      push_cast
      ring
    have htot2 : (M1 : ℚ) * 60 + q1 + -off = v0 := by
      rw [hM1q1, hr3, htot]
      ring
    have hout2 : add_time_offset (add_time_offset (mmssChars m ms) off) (-off) =
        intChars ⌊((M1 : ℚ) * 60 + q1 + -off) / 60⌋ 2 ++
          ':' :: fmtSec ((M1 : ℚ) * 60 + q1 + -off -
            60 * (⌊((M1 : ℚ) * 60 + q1 + -off) / 60⌋ : ℚ)) :=
      add_time_offset_out (-off) ht1ne hp1
    rw [hout2, htot2]
    have hfloor : ⌊v0 / 60⌋ = (m : ℤ) := by
      rw [Int.floor_eq_iff, hv0]
      have hq : (ms : ℚ) < 60000 := by exact_mod_cast hms
      have hq0 : (0 : ℚ) ≤ (ms : ℚ) := by positivity
      constructor
      · push_cast
        nlinarith
      · push_cast
        nlinarith
    rw [hfloor]
    have hsec : v0 - 60 * (((m : ℤ)) : ℚ) = (ms : ℚ) / 1000 := by
      rw [hv0]
      push_cast
      ring
    rw [hsec]
    have hic : intChars ((m : ℤ)) 2 = padZeros 2 (natChars m) := by
      rw [intChars, if_neg (by omega : ¬((m : ℤ) < 0)), Int.toNat_natCast]
    have hfs : fmtSec ((ms : ℚ) / 1000) =
        padZeros 2 (natChars (ms / 1000)) ++ '.' :: padZeros 3 (natChars (ms % 1000)) := by
      rw [fmtSec_eq]
      have hr : round (((ms : ℚ) / 1000) * 1000) = ((ms : ℕ) : ℤ) := by
        have heq : ((ms : ℚ) / 1000) * 1000 = ((ms : ℕ) : ℚ) := by field_simp
        rw [heq, round_natCast]
      rw [hr, Int.toNat_natCast]
    rw [hic, hfs, mmssChars]

/-- C10: `add_time_offset` is total on its string input.  The `try/except`
of the source is embedded as a total function: the empty string and any
string whose parse fails are returned unchanged, and a successfully parsed
timestamp is re-rendered as minutes/seconds — no input raises. -/
theorem add_time_offset_total (t : List Char) (off : ℚ) :
    (t = [] → add_time_offset t off = t) ∧
    (parseTs t = none → add_time_offset t off = t) ∧
    (∀ m s, parseTs t = some (m, s) →
      add_time_offset t off =
        intChars ⌊((m : ℚ) * 60 + s + off) / 60⌋ 2 ++
          ':' :: fmtSec ((m : ℚ) * 60 + s + off - 60 * (⌊((m : ℚ) * 60 + s + off) / 60⌋ : ℚ))) := by
  refine ⟨?_, ?_, ?_⟩
  · intro h
    rw [add_time_offset, if_pos h]
  · intro h
    by_cases ht : t = []
    · rw [add_time_offset, if_pos ht]
    · rw [add_time_offset, if_neg ht, h]
  · intro m s h
    by_cases ht : t = []
    · rw [ht] at h
      exact Option.noConfusion h
    · exact add_time_offset_out off ht h

/-- Witness for C10: the unparseable string "garbage" and the empty string
come back unchanged after an offset of 5 seconds. -/
theorem add_time_offset_total_witness :
    add_time_offset [] 5 = [] ∧
    add_time_offset "garbage".data 5 = "garbage".data :=
  ⟨(add_time_offset_total [] 5).1 rfl,
    (add_time_offset_total "garbage".data 5).2.1 (by decide)⟩

/-- Witness for C5: the timestamp "01:00.500" round-trips through offset 80. -/
theorem timestamp_offset_roundtrip_witness :
    (500 < 60000 ∧ (0 : ℚ) ≤ 80) ∧
    (∃ v, tsVal (add_time_offset (add_time_offset (mmssChars 1 500) 80) (-80)) = some v ∧
      |v - ((1 : ℚ) * 60 + (500 : ℚ) / 1000)| ≤ 1 / 1000) ∧
    add_time_offset (add_time_offset (mmssChars 1 500) 80) (-80) = mmssChars 1 500 :=
  ⟨⟨by norm_num, by norm_num⟩,
    (timestamp_offset_roundtrip 1 500 80 (by norm_num) (by norm_num)).1,
    (timestamp_offset_roundtrip 1 500 80 (by norm_num) (by norm_num)).2 80000 (by norm_num)⟩

/-! ### The Chunker (`split_video_into_chunks`, parallel_processor.py:63-129) -/

/-- A chunk descriptor (parallel_processor.py:28-34); the media file path is
a side effect carrying no verified information and is omitted. -/
structure VideoChunk where
  chunk_index : ℕ
  start_offset : ℚ
  duration : ℚ
deriving DecidableEq, Repr

/-- The `while current_time < total_duration` loop of
`split_video_into_chunks` (parallel_processor.py:83-126).  Each pass appends
a chunk of duration `min(chunk_duration, remaining)` and advances
`current_time` by the full `chunk_duration`.  The `0 < D` conjunct in the
guard makes the recursion well-founded; for `D ≤ 0` the source loop never
terminates, so no claim constrains that case. -/
def splitLoop (T : ℚ) (D : ℤ) (current : ℚ) (idx : ℕ) : List VideoChunk :=
  if h : 0 < D ∧ current < T then
    { chunk_index := idx, start_offset := current,
      duration := min (D : ℚ) (T - current) } :: splitLoop T D (current + D) (idx + 1)
  else []
termination_by (⌈(T - current) / (D : ℚ)⌉).toNat
decreasing_by
  obtain ⟨hD, hlt⟩ := h
  have hD' : (0 : ℚ) < (D : ℚ) := by exact_mod_cast hD
  have h1 : (T - (current + (D : ℚ))) / (D : ℚ) = (T - current) / (D : ℚ) - 1 := by
    field_simp
    ring
  have h2 : 0 < ⌈(T - current) / (D : ℚ)⌉ :=
    Int.ceil_pos.mpr (div_pos (by linarith) hD')
  rw [h1, Int.ceil_sub_one]
  omega

/-- `split_video_into_chunks(video_path, chunk_duration)` with the probed
source duration `T`: starts at `current_time = 0.0`, `chunk_index = 0`. -/
def split_video_into_chunks (T : ℚ) (D : ℤ) : List VideoChunk :=
  splitLoop T D 0 0

theorem splitLoop_eq (T : ℚ) (D : ℤ) (hD : 0 < D) :
    ∀ (n : ℕ) (c : ℚ) (k : ℕ), (⌈(T - c) / (D : ℚ)⌉).toNat = n →
      splitLoop T D c k = (List.range n).map (fun j =>
        { chunk_index := k + j, start_offset := c + (j : ℚ) * D,
          duration := min (D : ℚ) (T - (c + (j : ℚ) * D)) }) := by
  have hD' : (0 : ℚ) < (D : ℚ) := by exact_mod_cast hD
  intro n
  induction n with
  | zero =>
    intro c k hn
    have hcond : ¬(0 < D ∧ c < T) := by
      rintro ⟨_, hlt⟩
      have hpos : 0 < ⌈(T - c) / (D : ℚ)⌉ :=
        Int.ceil_pos.mpr (div_pos (by linarith) hD')
      omega
    rw [splitLoop.eq_def, dif_neg hcond]
    simp
  | succ n ih =>
    intro c k hn
    have hpos : 0 < ⌈(T - c) / (D : ℚ)⌉ := by omega
    have hlt : c < T := by
      by_contra hc
      have hle : (T - c) / (D : ℚ) ≤ 0 :=
        div_nonpos_of_nonpos_of_nonneg (by linarith) (le_of_lt hD')
      have : ⌈(T - c) / (D : ℚ)⌉ ≤ 0 := Int.ceil_le.mpr (by simpa using hle)
      omega
    rw [splitLoop.eq_def, dif_pos ⟨hD, hlt⟩]
    have hnext : (⌈(T - (c + (D : ℚ))) / (D : ℚ)⌉).toNat = n := by
      have h1 : (T - (c + (D : ℚ))) / (D : ℚ) = (T - c) / (D : ℚ) - 1 := by
        field_simp
        ring
      rw [h1, Int.ceil_sub_one]
      omega
    rw [ih (c + D) (k + 1) hnext, List.range_succ_eq_map, List.map_cons, List.map_map]
    congr 1
    · norm_num
    · apply List.map_congr_left
      intro j hj
      have h1 : k + 1 + j = k + (j + 1) := by omega
      have h2 : c + (D : ℚ) + (j : ℚ) * D = c + ((j : ℚ) + 1) * D := by ring
      simp only [Function.comp]
      rw [h1]
      congr 1 <;> push_cast <;> ring

/-- C2: for every source duration `T > 0` and integer chunk duration `D > 0`,
the Chunker's descriptors (i) are nonempty, (ii) have durations summing
exactly to `T`, (iii) carry 0-based contiguous chunk indices, (iv) start at
offset 0, (v) satisfy `offset[i+1] = offset[i] + duration[i]`, (vi) have
strictly increasing offsets, (vii) all have duration `D` except possibly the
final chunk, (viii) all have strictly positive duration, and (ix) the final
chunk's duration is the remainder `T - offset`. -/
theorem chunker_descriptors (T : ℚ) (D : ℤ) (hT : 0 < T) (hD : 0 < D) :
    split_video_into_chunks T D ≠ [] ∧
    ((split_video_into_chunks T D).map VideoChunk.duration).sum = T ∧
    (∀ i (h : i < (split_video_into_chunks T D).length),
      ((split_video_into_chunks T D).get ⟨i, h⟩).chunk_index = i) ∧
    (∀ h0 : 0 < (split_video_into_chunks T D).length,
      ((split_video_into_chunks T D).get ⟨0, h0⟩).start_offset = 0) ∧
    (∀ i (h : i + 1 < (split_video_into_chunks T D).length),
      ((split_video_into_chunks T D).get ⟨i + 1, h⟩).start_offset =
        ((split_video_into_chunks T D).get ⟨i, Nat.lt_of_succ_lt h⟩).start_offset +
        ((split_video_into_chunks T D).get ⟨i, Nat.lt_of_succ_lt h⟩).duration) ∧
    (∀ i j (hi : i < (split_video_into_chunks T D).length)
        (hj : j < (split_video_into_chunks T D).length), i < j →
      ((split_video_into_chunks T D).get ⟨i, hi⟩).start_offset <
        ((split_video_into_chunks T D).get ⟨j, hj⟩).start_offset) ∧
    (∀ i (h : i + 1 < (split_video_into_chunks T D).length),
      ((split_video_into_chunks T D).get ⟨i, Nat.lt_of_succ_lt h⟩).duration = (D : ℚ)) ∧
    (∀ x ∈ split_video_into_chunks T D, 0 < x.duration) ∧
    (∀ hne : split_video_into_chunks T D ≠ [],
      ((split_video_into_chunks T D).getLast hne).duration =
        T - ((split_video_into_chunks T D).getLast hne).start_offset) := by
  have hD' : (0 : ℚ) < (D : ℚ) := by exact_mod_cast hD
  set n := (⌈T / (D : ℚ)⌉).toNat with hn
  have hceilpos : 0 < ⌈T / (D : ℚ)⌉ := Int.ceil_pos.mpr (div_pos hT hD')
  have hceil : ((n : ℤ)) = ⌈T / (D : ℚ)⌉ := by
    rw [hn]
    exact Int.toNat_of_nonneg (le_of_lt hceilpos)
  have hform : split_video_into_chunks T D = (List.range n).map (fun j =>
      { chunk_index := j, start_offset := (j : ℚ) * D,
        duration := min (D : ℚ) (T - (j : ℚ) * D) }) := by
    rw [split_video_into_chunks, splitLoop_eq T D hD n 0 0 (by rw [hn, sub_zero])]
    apply List.map_congr_left
    intro j hj
    norm_num
  have hlen : (split_video_into_chunks T D).length = n := by
    rw [hform, List.length_map, List.length_range]
  have hn1 : 1 ≤ n := by omega
  have hget : ∀ i (h : i < (split_video_into_chunks T D).length),
      (split_video_into_chunks T D).get ⟨i, h⟩ =
        { chunk_index := i, start_offset := (i : ℚ) * D,
          duration := min (D : ℚ) (T - (i : ℚ) * D) } := by
    intro i h
    rw [List.get_eq_getElem]
    have hi : i < n := by rw [← hlen]; exact h
    simp only [hform, List.getElem_map, List.getElem_range]
  have hjD : ∀ j : ℕ, j < n → (j : ℚ) * D < T := by
    intro j hj
    have hjceil : (j : ℤ) < ⌈T / (D : ℚ)⌉ := by omega
    have h1 : ((j : ℤ) : ℚ) + 1 ≤ ((⌈T / (D : ℚ)⌉ : ℤ) : ℚ) := by
      exact_mod_cast Int.lt_iff_add_one_le.mp hjceil
    have h2 : ((⌈T / (D : ℚ)⌉ : ℤ) : ℚ) < T / (D : ℚ) + 1 := Int.ceil_lt_add_one _
    have h3 : ((j : ℕ) : ℚ) < T / (D : ℚ) := by
      push_cast at h1
      linarith
    calc (j : ℚ) * D < (T / (D : ℚ)) * D := by exact (mul_lt_mul_right hD').mpr h3
    _ = T := div_mul_cancel₀ T (ne_of_gt hD')
  have hTle : T ≤ (n : ℚ) * D := by
    have h1 : T / (D : ℚ) ≤ ((⌈T / (D : ℚ)⌉ : ℤ) : ℚ) := Int.le_ceil _
    have h2 : ((⌈T / (D : ℚ)⌉ : ℤ) : ℚ) = (n : ℚ) := by
      rw [← hceil]
      push_cast
      rfl
    calc T = (T / (D : ℚ)) * D := (div_mul_cancel₀ T (ne_of_gt hD')).symm
    _ ≤ (n : ℚ) * D := by
      rw [← h2]
      exact (mul_le_mul_right hD').mpr h1
  have hdurD : ∀ i : ℕ, i + 1 < n → min (D : ℚ) (T - (i : ℚ) * D) = (D : ℚ) := by
    intro i h
    apply min_eq_left
    have := hjD (i + 1) h
    push_cast at this
    linarith
  have hdurpos : ∀ i : ℕ, i < n → 0 < min (D : ℚ) (T - (i : ℚ) * D) := by
    intro i h
    have := hjD i h
    exact lt_min hD' (by linarith)
  refine ⟨?_, ?_, ?_, ?_, ?_, ?_, ?_, ?_, ?_⟩
  · intro hcon
    rw [← List.length_eq_zero] at hcon
    omega
  · rw [hform, List.map_map]
    obtain ⟨m, hm⟩ : ∃ m, n = m + 1 := ⟨n - 1, by omega⟩
    rw [hm, List.range_succ, List.map_append, List.sum_append]
    have hconst : (List.range m).map
        (VideoChunk.duration ∘ fun j =>
          VideoChunk.mk j ((j : ℚ) * D) (min (D : ℚ) (T - (j : ℚ) * D))) =
        List.replicate m (D : ℚ) := by
      have hmc : ∀ j ∈ List.range m,
          (VideoChunk.duration ∘ fun j =>
            VideoChunk.mk j ((j : ℚ) * D) (min (D : ℚ) (T - (j : ℚ) * D))) j = (D : ℚ) := by
        intro j hj
        have hjm : j + 1 < n := by
          rw [List.mem_range] at hj
          omega
        exact hdurD j hjm
      rw [List.map_congr_left hmc, List.map_const', List.length_range]
    rw [hconst, List.sum_replicate, nsmul_eq_mul]
    have hlast : min (D : ℚ) (T - (m : ℚ) * D) = T - (m : ℚ) * D := by
      apply min_eq_right
      have : T ≤ ((m : ℚ) + 1) * D := by
        have := hTle
        rw [hm] at this
        push_cast at this
        linarith
      linarith
    simp only [List.map_cons, List.map_nil, List.sum_cons, List.sum_nil, Function.comp]
    rw [hlast]
    ring
  · intro i h
    rw [hget i h]
  · intro h0
    rw [hget 0 h0]
    norm_num
  · intro i h
    have hi : i + 1 < n := by rw [← hlen]; exact h
    rw [hget (i + 1) h, hget i (Nat.lt_of_succ_lt h), hdurD i hi]
    push_cast
    ring
  · intro i j hi hj hij
    rw [hget i hi, hget j hj]
    show (i : ℚ) * D < (j : ℚ) * D
    have : (i : ℚ) < (j : ℚ) := by exact_mod_cast hij
    nlinarith
  · intro i h
    have hi : i + 1 < n := by rw [← hlen]; exact h
    rw [hget i (Nat.lt_of_succ_lt h)]
    exact hdurD i hi
  · intro x hx
    rw [hform, List.mem_map] at hx
    obtain ⟨j, hj, rfl⟩ := hx
    rw [List.mem_range] at hj
    exact hdurpos j hj
  · intro hne
    have hlenpos : 0 < (split_video_into_chunks T D).length := by
      rw [hlen]; omega
    rw [List.getLast_eq_getElem, ← List.get_eq_getElem
      (split_video_into_chunks T D) ⟨(split_video_into_chunks T D).length - 1, by omega⟩]
    rw [hget ((split_video_into_chunks T D).length - 1) (by omega)]
    have hidx : (split_video_into_chunks T D).length - 1 = n - 1 := by rw [hlen]
    rw [hidx]
    have hlast : min (D : ℚ) (T - ((n - 1 : ℕ) : ℚ) * D) = T - ((n - 1 : ℕ) : ℚ) * D := by
      apply min_eq_right
      have hcast : ((n - 1 : ℕ) : ℚ) = (n : ℚ) - 1 := by
        have : 1 ≤ n := hn1
        push_cast [this]
        ring
      rw [hcast]
      nlinarith
    rw [hlast]

/-- Witness for C2: the 95-second/40-second instance is nonempty and its
durations sum to 95. -/
theorem chunker_descriptors_witness :
    ((0 : ℚ) < 95 ∧ (0 : ℤ) < 40) ∧
    split_video_into_chunks 95 40 ≠ [] ∧
    ((split_video_into_chunks 95 40).map VideoChunk.duration).sum = 95 :=
  ⟨⟨by norm_num, by norm_num⟩,
    (chunker_descriptors 95 40 (by norm_num) (by norm_num)).1,
    (chunker_descriptors 95 40 (by norm_num) (by norm_num)).2.1⟩

/-! ### Ontology data model (clip_ontology_schema.py) -/

/-- A category in the ontology (clip_ontology_schema.py:14-36).  `values`
models the Python `set` contents listed in first-seen order; the set's
actual iteration order is unspecified in CPython and is therefore passed
explicitly to `get_top_values`.  `frequency` models the dict with its
`.get(v, 0)` default (a key is present iff its count is nonzero). -/
structure OntologyCategory where
  name : String
  values : List String
  frequency : String → ℕ

/-- `OntologyCategory.add_value` (clip_ontology_schema.py:21-24): skip falsy
(empty) values, add to the set, bump the frequency. -/
def OntologyCategory.add_value (cat : OntologyCategory) (value : String) : OntologyCategory :=
  if value = "" then cat
  else
    { cat with
      values := if value ∈ cat.values then cat.values else cat.values ++ [value],
      frequency := fun w => if w = value then cat.frequency value + 1 else cat.frequency w }

/-- `OntologyCategory.get_top_values` (clip_ontology_schema.py:26-27):
`sorted(self.values, key=frequency, reverse=True)[:n]`.  Python's `sorted`
is stable, modelled by a stable insertion sort; `enum` is the iteration
order in which the `set` yields its elements (any permutation of
`values`). -/
def OntologyCategory.get_top_values (cat : OntologyCategory) (enum : List String) (n : ℕ) :
    List String :=
  (List.insertionSort (fun a b => cat.frequency b ≤ cat.frequency a) enum).take n

/-- A fresh category with no observed values. -/
def emptyCategory (name : String) : OntologyCategory :=
  { name := name, values := [], frequency := fun _ => 0 }

/-- Ontology for a single clip (clip_ontology_schema.py:39-84), with the
source dataclass defaults. -/
structure ClipOntology where
  timestamp_start : String := ""
  timestamp_end : String := ""
  duration_seconds : ℚ := 0
  script_segment : String := ""
  shot_type : String := ""
  camera_angle : String := ""
  camera_movement : String := ""
  composition : String := ""
  setting_type : String := ""
  setting_description : String := ""
  lighting_style : String := ""
  color_mood : String := ""
  subject_type : String := ""
  subject_description : String := ""
  subject_action : String := ""
  text_on_screen : List String := []
  text_purpose : String := ""
  primary_emotion : String := ""
  secondary_emotion : String := ""
  emotional_intensity : String := ""
  emotional_direction : String := ""
  clip_function : String := ""
  narrative_role : String := ""
  persuasion_mechanism : String := ""
  persuasion_target : String := ""
  transition_in : String := ""
  transition_out : String := ""
  purpose_summary : String := ""
deriving DecidableEq, Inhabited, Repr

/-- The master ontology (clip_ontology_schema.py:87-126).  The wall-clock
`created_at`/`updated_at` strings are omitted (they carry no verified
information); dicts are modelled with `Option` for key presence. -/
structure MasterClipOntology where
  version : String
  videos_analyzed : ℕ
  total_clips_analyzed : ℕ
  shot_types : OntologyCategory
  camera_angles : OntologyCategory
  camera_movements : OntologyCategory
  compositions : OntologyCategory
  setting_types : OntologyCategory
  lighting_styles : OntologyCategory
  color_moods : OntologyCategory
  subject_types : OntologyCategory
  subject_actions : OntologyCategory
  text_purposes : OntologyCategory
  emotions : OntologyCategory
  emotional_intensities : OntologyCategory
  clip_functions : OntologyCategory
  narrative_roles : OntologyCategory
  persuasion_mechanisms : OntologyCategory
  transition_types : OntologyCategory
  common_sequences : List (List String)
  function_duration_averages : String → Option ℚ
  emotion_function_correlations : String → Option (String → ℕ)

/-- A freshly constructed `MasterClipOntology()`. -/
def MasterClipOntology.empty : MasterClipOntology where
  version := "1.0"
  videos_analyzed := 0
  total_clips_analyzed := 0
  shot_types := emptyCategory "shot_types"
  camera_angles := emptyCategory "camera_angles"
  camera_movements := emptyCategory "camera_movements"
  compositions := emptyCategory "compositions"
  setting_types := emptyCategory "setting_types"
  lighting_styles := emptyCategory "lighting_styles"
  color_moods := emptyCategory "color_moods"
  subject_types := emptyCategory "subject_types"
  subject_actions := emptyCategory "subject_actions"
  text_purposes := emptyCategory "text_purposes"
  emotions := emptyCategory "emotions"
  emotional_intensities := emptyCategory "emotional_intensities"
  clip_functions := emptyCategory "clip_functions"
  narrative_roles := emptyCategory "narrative_roles"
  persuasion_mechanisms := emptyCategory "persuasion_mechanisms"
  transition_types := emptyCategory "transition_types"
  common_sequences := []
  function_duration_averages := fun _ => none
  emotion_function_correlations := fun _ => none

/-- The categorical-attribute block of `update_from_clip`
(clip_ontology_schema.py:135-162): bump the clip counter and add every
categorical attribute of the clip to its category (both emotions go into
`emotions`, both transitions into `transition_types`). -/
def updateCategories (m : MasterClipOntology) (clip : ClipOntology) : MasterClipOntology :=
  { m with
    total_clips_analyzed := m.total_clips_analyzed + 1,
    shot_types := m.shot_types.add_value clip.shot_type,
    camera_angles := m.camera_angles.add_value clip.camera_angle,
    camera_movements := m.camera_movements.add_value clip.camera_movement,
    compositions := m.compositions.add_value clip.composition,
    setting_types := m.setting_types.add_value clip.setting_type,
    lighting_styles := m.lighting_styles.add_value clip.lighting_style,
    color_moods := m.color_moods.add_value clip.color_mood,
    subject_types := m.subject_types.add_value clip.subject_type,
    subject_actions := m.subject_actions.add_value clip.subject_action,
    text_purposes := m.text_purposes.add_value clip.text_purpose,
    emotions := (m.emotions.add_value clip.primary_emotion).add_value clip.secondary_emotion,
    emotional_intensities := m.emotional_intensities.add_value clip.emotional_intensity,
    clip_functions := m.clip_functions.add_value clip.clip_function,
    narrative_roles := m.narrative_roles.add_value clip.narrative_role,
    persuasion_mechanisms := m.persuasion_mechanisms.add_value clip.persuasion_mechanism,
    transition_types :=
      (m.transition_types.add_value clip.transition_in).add_value clip.transition_out }

/-- The duration-average block of `update_from_clip`
(clip_ontology_schema.py:164-172), applied after the categorical block so
that `count` reads the already-incremented `clip_functions` frequency via
`.get(func, 1)` (a key is absent iff its frequency is 0). -/
def updateDurationAvg (m : MasterClipOntology) (clip : ClipOntology) : MasterClipOntology :=
  if clip.clip_function ≠ "" ∧ 0 < clip.duration_seconds then
    { m with function_duration_averages := fun f =>
        if f = clip.clip_function then
          match m.function_duration_averages clip.clip_function with
          | none => some clip.duration_seconds
          | some old_avg =>
            let count := if m.clip_functions.frequency clip.clip_function = 0 then 1
              else m.clip_functions.frequency clip.clip_function
            some ((old_avg * ((count - 1 : ℕ) : ℚ) + clip.duration_seconds) / (count : ℚ))
        else m.function_duration_averages f }
  else m

/-- The emotion-function correlation block of `update_from_clip`
(clip_ontology_schema.py:174-180). -/
def updateCorrelations (m : MasterClipOntology) (clip : ClipOntology) : MasterClipOntology :=
  if clip.clip_function ≠ "" ∧ clip.primary_emotion ≠ "" then
    { m with emotion_function_correlations := fun f =>
        if f = clip.clip_function then
          let inner := match m.emotion_function_correlations clip.clip_function with
            | none => fun _ => 0
            | some g => g
          some (fun e =>
            if e = clip.primary_emotion then inner clip.primary_emotion + 1 else inner e)
        else m.emotion_function_correlations f }
  else m

/-- `MasterClipOntology.update_from_clip` (clip_ontology_schema.py:133-180):
the three blocks in source order. -/
def MasterClipOntology.update_from_clip (m : MasterClipOntology) (clip : ClipOntology) :
    MasterClipOntology :=
  updateCorrelations (updateDurationAvg (updateCategories m clip) clip) clip

/-- Fold a clip sequence into the master ontology, one merge per clip in
order (the single-writer post-assembly merge stream). -/
def MasterClipOntology.update_from_clips (m : MasterClipOntology) (clips : List ClipOntology) :
    MasterClipOntology :=
  clips.foldl MasterClipOntology.update_from_clip m

/-! ### Chunk results and the Assembler (parallel_processor.py:37-45, 153-244) -/

/-- `AnnotatedClip` (clip_ontology_schema.py:311-315). -/
structure AnnotatedClip where
  clip_number : ℕ
  ontology : ClipOntology
deriving DecidableEq, Inhabited, Repr

/-- `ChunkResult` (parallel_processor.py:37-45). -/
structure ChunkResult where
  chunk_index : ℕ
  start_offset : ℚ
  clips : List AnnotatedClip
  transcript : String
  success : Bool
  error : Option String
deriving DecidableEq, Inhabited, Repr

/-- The analyzer's converted response for one chunk: clips with chunk-local
timestamps plus the chunk transcript.  The external Clip Extraction Service
call (`IterativeClipAnalyzer.analyze_video` and
`_convert_to_clip_ontology`) produces this; it is an input of the model. -/
structure AnalysisResult where
  clips : List ClipOntology
  transcript : String

/-- The successful path of `process_single_chunk`
(parallel_processor.py:162-199): shift every clip's timestamps by the
chunk's `start_offset`, wrap each in an `AnnotatedClip` with
`clip_number = 0` (renumbered later), `success = True`. -/
def process_single_chunk (chunk : VideoChunk) (analysis : AnalysisResult) : ChunkResult where
  chunk_index := chunk.chunk_index
  start_offset := chunk.start_offset
  clips := analysis.clips.map fun o =>
    { clip_number := 0,
      ontology := { o with
        timestamp_start := addTimeOffsetStr o.timestamp_start chunk.start_offset,
        timestamp_end := addTimeOffsetStr o.timestamp_end chunk.start_offset } }
  transcript := analysis.transcript
  success := true
  error := none

/-- The failure path of `process_single_chunk`
(parallel_processor.py:201-210): no clips, empty transcript,
`success = False`, the error message preserved. -/
def failedChunkResult (chunk : VideoChunk) (err : String) : ChunkResult where
  chunk_index := chunk.chunk_index
  start_offset := chunk.start_offset
  clips := []
  transcript := ""
  success := false
  error := some err

/-- The transcript placeholder for a failed chunk
(parallel_processor.py:234): `f"[Chunk {index} failed: {error}]"`; Python
renders a `None` error as `"None"`. -/
def placeholderText (r : ChunkResult) : String :=
  "[Chunk " ++ String.mk (natChars r.chunk_index) ++ " failed: " ++
    (match r.error with | some e => e | none => "None") ++ "]"

/-- `sorted(chunk_results, key=lambda r: r.chunk_index)`
(parallel_processor.py:222): Python's `sorted` is a stable sort, modelled
by a stable insertion sort on the chunk index. -/
def sortResults (results : List ChunkResult) : List ChunkResult :=
  List.insertionSort (fun a b => a.chunk_index ≤ b.chunk_index) results

/-- The renumbering loop `for i, clip in enumerate(all_clips, 1)`
(parallel_processor.py:237-238). -/
def renumber : ℕ → List AnnotatedClip → List AnnotatedClip
  | _, [] => []
  | i, c :: rest => { c with clip_number := i } :: renumber (i + 1) rest

/-- The per-result body of the collection loop in `assemble_results`
(parallel_processor.py:227-234): a successful result extends the clip list
and (when non-empty, Python truthiness) appends its transcript; a failed
result appends a placeholder and contributes zero clips. -/
def assembleStep (acc : List AnnotatedClip × List String) (r : ChunkResult) :
    List AnnotatedClip × List String :=
  if r.success then
    (acc.1 ++ r.clips, if r.transcript ≠ "" then acc.2 ++ [r.transcript] else acc.2)
  else
    (acc.1, acc.2 ++ [placeholderText r])

/-- `assemble_results` (parallel_processor.py:213-244): sort by chunk index;
successful chunks contribute their clips and (if nonempty) transcript,
failed chunks contribute a placeholder; renumber clips from 1 and merge each
into the master ontology; join transcript parts with a single space. -/
def assemble_results (chunk_results : List ChunkResult) (master : MasterClipOntology) :
    List AnnotatedClip × String × MasterClipOntology :=
  let sorted := sortResults chunk_results
  let collected := sorted.foldl assembleStep ([], [])
  let numbered := renumber 1 collected.1
  let master' := numbered.foldl (fun m c => m.update_from_clip c.ontology) master
  (numbered, String.intercalate " " collected.2, master')

/-- `successful_chunks = sum(1 for r in chunk_results if r.success)`
(parallel_processor.py:355). -/
def successfulCount (results : List ChunkResult) : ℕ :=
  (results.filter (fun r => r.success)).length

/-- `failed_chunks = len(chunk_results) - successful_chunks`
(parallel_processor.py:356). -/
def failedCount (results : List ChunkResult) : ℕ :=
  results.length - successfulCount results

/-! ### Assembler lemmas (C1, C9) -/

theorem renumber_length (i : ℕ) (l : List AnnotatedClip) : (renumber i l).length = l.length := by
  induction l generalizing i with
  | nil => rfl
  | cons c rest ih =>
    rw [renumber, List.length_cons, List.length_cons, ih]

theorem renumber_map_clip_number (i : ℕ) (l : List AnnotatedClip) :
    (renumber i l).map AnnotatedClip.clip_number = List.range' i l.length := by
  induction l generalizing i with
  | nil => rfl
  | cons c rest ih =>
    rw [renumber, List.map_cons, List.length_cons, List.range'_succ, ih]

instance : IsTotal ChunkResult (fun a b => a.chunk_index ≤ b.chunk_index) :=
  ⟨fun a b => Nat.le_total _ _⟩

instance : IsTrans ChunkResult (fun a b => a.chunk_index ≤ b.chunk_index) :=
  ⟨fun _ _ _ h1 h2 => Nat.le_trans h1 h2⟩

instance : IsAntisymm ChunkResult (fun a b => a.chunk_index < b.chunk_index) :=
  ⟨fun _ _ h1 h2 => absurd (Nat.lt_trans h1 h2) (Nat.lt_irrefl _)⟩

theorem sortResults_perm (l : List ChunkResult) : (sortResults l).Perm l :=
  List.perm_insertionSort _ l

theorem sortResults_sorted (l : List ChunkResult) :
    List.Sorted (fun a b : ChunkResult => a.chunk_index ≤ b.chunk_index) (sortResults l) :=
  List.sorted_insertionSort _ l

theorem sortResults_strict {l : List ChunkResult}
    (hnd : (l.map ChunkResult.chunk_index).Nodup) :
    List.Pairwise (fun a b : ChunkResult => a.chunk_index < b.chunk_index) (sortResults l) := by
  have hnd1 : List.Pairwise (fun a b : ChunkResult => a.chunk_index ≠ b.chunk_index) l :=
    List.pairwise_map.mp hnd
  have hsymm : ∀ {x y : ChunkResult}, x.chunk_index ≠ y.chunk_index →
      y.chunk_index ≠ x.chunk_index := fun h => h.symm
  have hne : List.Pairwise (fun a b : ChunkResult => a.chunk_index ≠ b.chunk_index)
      (sortResults l) := (List.Perm.pairwise_iff hsymm (sortResults_perm l)).mpr hnd1
  exact ((sortResults_sorted l).and hne).imp fun h => lt_of_le_of_ne h.1 h.2

theorem sortResults_eq_of_perm {l1 l2 : List ChunkResult} (hperm : l1.Perm l2)
    (hnd : (l1.map ChunkResult.chunk_index).Nodup) : sortResults l1 = sortResults l2 := by
  have hnd2 : (l2.map ChunkResult.chunk_index).Nodup :=
    (List.Perm.nodup_iff (hperm.map ChunkResult.chunk_index)).mp hnd
  have hpp : (sortResults l1).Perm (sortResults l2) :=
    (sortResults_perm l1).trans (hperm.trans (sortResults_perm l2).symm)
  exact List.eq_of_perm_of_sorted hpp (sortResults_strict hnd) (sortResults_strict hnd2)

/-- C1: for chunk results with pairwise-distinct `chunk_index`, the
Assembler renumbers the output clips to exactly `1..len` (dense, 1-based,
strictly increasing), and the entire output (clip sequence, transcript and
updated master ontology) is invariant under any permutation of the input
result list. -/
theorem assemble_results_renumber_perm_invariant
    (results l2 : List ChunkResult) (master : MasterClipOntology)
    (hnd : (results.map ChunkResult.chunk_index).Nodup) (hperm : results.Perm l2) :
    ((assemble_results results master).1.map AnnotatedClip.clip_number =
      List.range' 1 (assemble_results results master).1.length) ∧
    assemble_results l2 master = assemble_results results master := by
  constructor
  · show (renumber 1 _).map AnnotatedClip.clip_number = List.range' 1 (renumber 1 _).length
    rw [renumber_map_clip_number, renumber_length]
  · have hsort : sortResults l2 = sortResults results :=
      sortResults_eq_of_perm hperm.symm
        ((List.Perm.nodup_iff (hperm.map ChunkResult.chunk_index)).mp hnd)
    simp only [assemble_results, hsort]

/-- Test fixture: a one-clip successful chunk result at offset 0. -/
def c1r0 : ChunkResult :=
  process_single_chunk (VideoChunk.mk 0 0 40)
    ⟨[{ timestamp_start := "00:01.000", timestamp_end := "00:02.000" }], "hello"⟩

/-- Test fixture: a failed chunk result at offset 40. -/
def c1r1 : ChunkResult := failedChunkResult (VideoChunk.mk 1 40 40) "boom"

/-- Witness for C1: a two-result instance with distinct indices, assembled in
both input orders. -/
theorem assemble_results_renumber_perm_invariant_witness :
    (([c1r0, c1r1].map ChunkResult.chunk_index).Nodup ∧ [c1r0, c1r1].Perm [c1r1, c1r0]) ∧
    ((assemble_results [c1r0, c1r1] MasterClipOntology.empty).1.map
        AnnotatedClip.clip_number =
      List.range' 1 (assemble_results [c1r0, c1r1] MasterClipOntology.empty).1.length) ∧
    assemble_results [c1r1, c1r0] MasterClipOntology.empty =
      assemble_results [c1r0, c1r1] MasterClipOntology.empty :=
  ⟨⟨by decide, List.Perm.swap c1r1 c1r0 []⟩,
    assemble_results_renumber_perm_invariant [c1r0, c1r1] [c1r1, c1r0]
      MasterClipOntology.empty (by decide) (List.Perm.swap c1r1 c1r0 [])⟩

theorem foldl_assembleStep_all_failed :
    ∀ (l : List ChunkResult) (acc : List AnnotatedClip × List String),
      (∀ r ∈ l, r.success = false) →
      l.foldl assembleStep acc = (acc.1, acc.2 ++ l.map placeholderText) := by
  intro l
  induction l with
  | nil => intro acc _; simp
  | cons r rest ih =>
    intro acc h
    rw [List.foldl_cons]
    have hr : r.success = false := h r (List.mem_cons_self _ _)
    have hstep : assembleStep acc r = (acc.1, acc.2 ++ [placeholderText r]) := by
      rw [assembleStep, hr]
      simp
    rw [hstep, ih _ (fun x hx => h x (List.mem_cons_of_mem _ hx))]
    simp

/-- C9: if every chunk result is a failure, assembly yields an empty clip
sequence and a transcript that is exactly the failure placeholders joined by
spaces; this is an ordinary return value (the embedding is a total
function), and the caller-visible failure count equals the number of
chunks. -/
theorem assemble_results_all_failed (results : List ChunkResult) (master : MasterClipOntology)
    (hfail : ∀ r ∈ results, r.success = false) :
    (assemble_results results master).1 = [] ∧
    (assemble_results results master).2.1 =
      String.intercalate " " ((sortResults results).map placeholderText) ∧
    failedCount results = results.length := by
  have hfail' : ∀ r ∈ sortResults results, r.success = false := fun r hr =>
    hfail r ((sortResults_perm results).mem_iff.mp hr)
  have hfold := foldl_assembleStep_all_failed (sortResults results) ([], []) hfail'
  refine ⟨?_, ?_, ?_⟩
  · have h1 : (assemble_results results master).1 =
        renumber 1 ((sortResults results).foldl assembleStep ([], [])).1 := rfl
    rw [h1, hfold]
    rfl
  · have h2 : (assemble_results results master).2.1 =
        String.intercalate " " ((sortResults results).foldl assembleStep ([], [])).2 := rfl
    rw [h2, hfold]
    simp
  · rw [failedCount, successfulCount]
    have hnil : results.filter (fun r => r.success) = [] := by
      rw [List.filter_eq_nil_iff]
      intro a ha
      simp [hfail a ha]
    rw [hnil]
    simp

/-- Witness for C9: two failed chunks assemble to no clips and a
placeholder-only transcript. -/
theorem assemble_results_all_failed_witness :
    (assemble_results [c1r1, failedChunkResult (VideoChunk.mk 0 0 40) "oops"]
      MasterClipOntology.empty).1 = [] ∧
    (assemble_results [c1r1, failedChunkResult (VideoChunk.mk 0 0 40) "oops"]
      MasterClipOntology.empty).2.1 =
      String.intercalate " "
        ((sortResults [c1r1, failedChunkResult (VideoChunk.mk 0 0 40) "oops"]).map
          placeholderText) ∧
    failedCount [c1r1, failedChunkResult (VideoChunk.mk 0 0 40) "oops"] = 2 :=
  assemble_results_all_failed [c1r1, failedChunkResult (VideoChunk.mk 0 0 40) "oops"]
    MasterClipOntology.empty (by decide)

/-! ### The 95-second end-to-end scenario (C4) -/

theorem ceil_95_40 : (⌈(95 - 0 : ℚ) / ((40 : ℤ) : ℚ)⌉).toNat = 3 := by
  have h : (⌈(95 - 0 : ℚ) / ((40 : ℤ) : ℚ)⌉) = 3 := by
    rw [Int.ceil_eq_iff]
    constructor <;> norm_num
  rw [h]
  rfl

theorem split_95_40 : split_video_into_chunks 95 40 =
    [VideoChunk.mk 0 0 40, VideoChunk.mk 1 40 40, VideoChunk.mk 2 80 15] := by
  rw [split_video_into_chunks, splitLoop_eq 95 40 (by norm_num) 3 0 0 ceil_95_40]
  have hr : List.range 3 = [0, 1, 2] := rfl
  rw [hr]
  simp only [List.map_cons, List.map_nil, List.cons.injEq, VideoChunk.mk.injEq, and_true]
  norm_num [min_def]

/-- Scenario fixture: first chunk-local clip of the chunk at offset 0. -/
def c4o1 : ClipOntology := { timestamp_start := "00:05.000", timestamp_end := "00:10.000" }

/-- Scenario fixture: second chunk-local clip of the chunk at offset 0. -/
def c4o2 : ClipOntology := { timestamp_start := "00:15.000", timestamp_end := "00:20.000" }

/-- Scenario fixture: first chunk-local clip of the chunk at offset 80. -/
def c4o3 : ClipOntology := { timestamp_start := "00:02.000", timestamp_end := "00:07.000" }

/-- Scenario fixture: second chunk-local clip of the chunk at offset 80. -/
def c4o4 : ClipOntology := { timestamp_start := "00:08.000", timestamp_end := "00:12.000" }

/-- Scenario: the chunk at offset 0 succeeds with two clips. -/
def c4r0 : ChunkResult :=
  process_single_chunk (VideoChunk.mk 0 0 40) ⟨[c4o1, c4o2], "first"⟩

/-- Scenario: the chunk at offset 40 (chunk index 1) fails. -/
def c4r1 : ChunkResult := failedChunkResult (VideoChunk.mk 1 40 40) "err"

/-- Scenario: the chunk at offset 80 succeeds with two clips. -/
def c4r2 : ChunkResult :=
  process_single_chunk (VideoChunk.mk 2 80 15) ⟨[c4o3, c4o4], "third"⟩

/-- Whole-millisecond offsets act exactly on canonical `MM:SS.mmm`
timestamps: adding `k` milliseconds to `m` minutes + `ms` milliseconds
re-renders as the canonical form of the summed time. -/
theorem add_time_offset_mmss (m ms k : ℕ) (off : ℚ) (hoff : off = (k : ℚ) / 1000) :
    add_time_offset (mmssChars m ms) off =
      mmssChars (m + (ms + k) / 60000) ((ms + k) % 60000) := by
  have hne0 : mmssChars m ms ≠ [] := mmssChars_ne_nil m ms
  have hp0 : parseTs (mmssChars m ms) = some ((m : ℤ), (ms : ℚ) / 1000) := parseTs_mmss m ms
  set total : ℚ := (((m : ℤ)) : ℚ) * 60 + (ms : ℚ) / 1000 + off with htot
  have hout : add_time_offset (mmssChars m ms) off =
      intChars ⌊total / 60⌋ 2 ++ ':' :: fmtSec (total - 60 * (⌊total / 60⌋ : ℚ)) :=
    add_time_offset_out off hne0 hp0
  set N : ℕ := 60000 * m + ms + k with hN
  have htoteq : total = ((N : ℕ) : ℚ) / 1000 := by
    rw [htot, hoff, hN]
    push_cast
    ring
  have hdm : 60000 * (N / 60000) + N % 60000 = N := Nat.div_add_mod N 60000
  have hcast : ((((N / 60000 : ℕ) : ℤ)) : ℚ) = ((N / 60000 : ℕ) : ℚ) := by
    norm_cast
  have hM : ⌊total / 60⌋ = ((N / 60000 : ℕ) : ℤ) := by
    have heq : total / 60 = ((N : ℕ) : ℚ) / 60000 := by
      rw [htoteq]
      ring
    rw [heq, Int.floor_eq_iff, hcast]
    constructor
    · rw [le_div_iff₀ (by norm_num)]
      have h2 : 60000 * (N / 60000) ≤ N := by omega
      calc ((N / 60000 : ℕ) : ℚ) * 60000 = ((60000 * (N / 60000) : ℕ) : ℚ) := by
            push_cast
            ring
      _ ≤ ((N : ℕ) : ℚ) := by exact_mod_cast h2
    · rw [div_lt_iff₀ (by norm_num)]
      have h2 : N < 60000 * (N / 60000) + 60000 := by omega
      calc ((N : ℕ) : ℚ) < ((60000 * (N / 60000) + 60000 : ℕ) : ℚ) := by exact_mod_cast h2
      _ = (((N / 60000 : ℕ) : ℚ) + 1) * 60000 := by
            push_cast
            ring
  have hsec : total - 60 * ((((N / 60000 : ℕ)) : ℤ) : ℚ) = ((N % 60000 : ℕ) : ℚ) / 1000 := by
    rw [htoteq, hcast]
    have h1 : ((N : ℕ) : ℚ) = 60000 * ((N / 60000 : ℕ) : ℚ) + ((N % 60000 : ℕ) : ℚ) := by
      exact_mod_cast hdm.symm
    rw [h1]
    ring
  rw [hout, hM, hsec]
  have hic : intChars ((N / 60000 : ℕ) : ℤ) 2 = padZeros 2 (natChars (N / 60000)) := by
    rw [intChars, if_neg (by omega : ¬(((N / 60000 : ℕ) : ℤ) < 0)), Int.toNat_natCast]
  have hfs : fmtSec (((N % 60000 : ℕ) : ℚ) / 1000) =
      padZeros 2 (natChars ((N % 60000) / 1000)) ++
        '.' :: padZeros 3 (natChars ((N % 60000) % 1000)) := by
    rw [fmtSec_eq]
    have hr : round ((((N % 60000 : ℕ) : ℚ) / 1000) * 1000) = ((N % 60000 : ℕ) : ℤ) := by
      have heq : (((N % 60000 : ℕ) : ℚ) / 1000) * 1000 = ((N % 60000 : ℕ) : ℚ) := by
        field_simp
      rw [heq, round_natCast]
    rw [hr, Int.toNat_natCast]
  rw [hic, hfs, mmssChars]
  have e1 : N / 60000 = m + (ms + k) / 60000 := by omega
  have e2 : N % 60000 = (ms + k) % 60000 := by omega
  rw [e1, e2]

/-- `addTimeOffsetStr` on a canonical `MM:SS.mmm` string with a
whole-millisecond offset, stated for concrete instantiation. -/
theorem addTimeOffsetStr_mmss (s out : String) (m ms k : ℕ) (off : ℚ)
    (hs : s.data = mmssChars m ms) (hoff : off = (k : ℚ) / 1000)
    (hout : out.data = mmssChars (m + (ms + k) / 60000) ((ms + k) % 60000)) :
    addTimeOffsetStr s off = out := by
  rw [addTimeOffsetStr, hs, add_time_offset_mmss m ms k off hoff, ← hout]

theorem ts0500_plus0 : addTimeOffsetStr "00:05.000" 0 = "00:05.000" :=
  addTimeOffsetStr_mmss _ _ 0 5000 0 _ (by decide) (by norm_num) (by decide)

theorem ts1000_plus0 : addTimeOffsetStr "00:10.000" 0 = "00:10.000" :=
  addTimeOffsetStr_mmss _ _ 0 10000 0 _ (by decide) (by norm_num) (by decide)

theorem ts1500_plus0 : addTimeOffsetStr "00:15.000" 0 = "00:15.000" :=
  addTimeOffsetStr_mmss _ _ 0 15000 0 _ (by decide) (by norm_num) (by decide)

theorem ts2000_plus0 : addTimeOffsetStr "00:20.000" 0 = "00:20.000" :=
  addTimeOffsetStr_mmss _ _ 0 20000 0 _ (by decide) (by norm_num) (by decide)

theorem ts0200_plus0 : addTimeOffsetStr "00:02.000" 0 = "00:02.000" :=
  addTimeOffsetStr_mmss _ _ 0 2000 0 _ (by decide) (by norm_num) (by decide)

theorem ts0200_plus80 : addTimeOffsetStr "00:02.000" 80 = "01:22.000" :=
  addTimeOffsetStr_mmss _ _ 0 2000 80000 _ (by decide) (by norm_num) (by decide)

theorem ts0700_plus80 : addTimeOffsetStr "00:07.000" 80 = "01:27.000" :=
  addTimeOffsetStr_mmss _ _ 0 7000 80000 _ (by decide) (by norm_num) (by decide)

theorem ts0800_plus80 : addTimeOffsetStr "00:08.000" 80 = "01:28.000" :=
  addTimeOffsetStr_mmss _ _ 0 8000 80000 _ (by decide) (by norm_num) (by decide)

theorem ts1200_plus80 : addTimeOffsetStr "00:12.000" 80 = "01:32.000" :=
  addTimeOffsetStr_mmss _ _ 0 12000 80000 _ (by decide) (by norm_num) (by decide)

/-- C4 (counterexample): in the 95-second scenario the Chunker does yield
chunks (40, 40, 15) at offsets [0, 40, 80] and assembly does yield 4 clips,
but clip 3 — the first clip of the chunk at offset 80 — has its corrected
timestamps based on offset 80, not offset 0 as the claim states: its
corrected start "01:22.000" differs from the offset-0 correction
"00:02.000" of its chunk-local start. -/
theorem scenario_95s_counterexample :
    split_video_into_chunks 95 40 =
      [VideoChunk.mk 0 0 40, VideoChunk.mk 1 40 40, VideoChunk.mk 2 80 15] ∧
    (assemble_results [c4r0, c4r1, c4r2] MasterClipOntology.empty).1.length = 4 ∧
    ((assemble_results [c4r0, c4r1, c4r2]
        MasterClipOntology.empty).1[2]!).ontology.timestamp_start ≠
      addTimeOffsetStr "00:02.000" 0 := by
  refine ⟨split_95_40, by decide, ?_⟩
  have ha : ((assemble_results [c4r0, c4r1, c4r2]
      MasterClipOntology.empty).1[2]!).ontology.timestamp_start =
      addTimeOffsetStr "00:02.000" 80 := rfl
  rw [ha, ts0200_plus80, ts0200_plus0]
  decide

/-- C4 (amended): a 95-second source split at chunk duration 40 yields
exactly 3 chunks with durations (40, 40, 15) and offsets [0, 40, 80]; with
the chunk at offset 40 (chunk index 1) failed and the other two chunks
returning 2 clips each, assembly produces exactly 4 clips numbered 1-4,
where clips 1 and 2 carry offset-0-corrected timestamps and clips 3 and 4
carry offset-80-corrected timestamps, and the transcript contains the
placeholder naming chunk index 1 between the two chunk transcripts. -/
theorem scenario_95s :
    split_video_into_chunks 95 40 =
      [VideoChunk.mk 0 0 40, VideoChunk.mk 1 40 40, VideoChunk.mk 2 80 15] ∧
    (assemble_results [c4r0, c4r1, c4r2] MasterClipOntology.empty).1.length = 4 ∧
    (assemble_results [c4r0, c4r1, c4r2] MasterClipOntology.empty).1.map
      AnnotatedClip.clip_number = [1, 2, 3, 4] ∧
    (assemble_results [c4r0, c4r1, c4r2] MasterClipOntology.empty).1.map
        (fun c => c.ontology.timestamp_start) =
      [addTimeOffsetStr "00:05.000" 0, addTimeOffsetStr "00:15.000" 0,
        addTimeOffsetStr "00:02.000" 80, addTimeOffsetStr "00:08.000" 80] ∧
    (assemble_results [c4r0, c4r1, c4r2] MasterClipOntology.empty).1.map
        (fun c => c.ontology.timestamp_start) =
      ["00:05.000", "00:15.000", "01:22.000", "01:28.000"] ∧
    (assemble_results [c4r0, c4r1, c4r2] MasterClipOntology.empty).1.map
        (fun c => c.ontology.timestamp_end) =
      [addTimeOffsetStr "00:10.000" 0, addTimeOffsetStr "00:20.000" 0,
        addTimeOffsetStr "00:07.000" 80, addTimeOffsetStr "00:12.000" 80] ∧
    (assemble_results [c4r0, c4r1, c4r2] MasterClipOntology.empty).1.map
        (fun c => c.ontology.timestamp_end) =
      ["00:10.000", "00:20.000", "01:27.000", "01:32.000"] ∧
    placeholderText c4r1 = "[Chunk 1 failed: err]" ∧
    (assemble_results [c4r0, c4r1, c4r2] MasterClipOntology.empty).2.1 =
      "first " ++ placeholderText c4r1 ++ " third" := by
  have hstart : (assemble_results [c4r0, c4r1, c4r2] MasterClipOntology.empty).1.map
      (fun c => c.ontology.timestamp_start) =
      [addTimeOffsetStr "00:05.000" 0, addTimeOffsetStr "00:15.000" 0,
        addTimeOffsetStr "00:02.000" 80, addTimeOffsetStr "00:08.000" 80] := rfl
  have hend : (assemble_results [c4r0, c4r1, c4r2] MasterClipOntology.empty).1.map
      (fun c => c.ontology.timestamp_end) =
      [addTimeOffsetStr "00:10.000" 0, addTimeOffsetStr "00:20.000" 0,
        addTimeOffsetStr "00:07.000" 80, addTimeOffsetStr "00:12.000" 80] := rfl
  refine ⟨split_95_40, by decide, by decide, hstart, ?_, hend, ?_, by decide, by decide⟩
  · rw [hstart, ts0500_plus0, ts1500_plus0, ts0200_plus80, ts0800_plus80]
  · rw [hend, ts1000_plus0, ts2000_plus0, ts0700_plus80, ts1200_plus80]

/-! ### Ontology merge lemmas (C3, C7, C8) -/

theorem add_value_freq_ne {cat : OntologyCategory} {v w : String} (h : w ≠ v) :
    (cat.add_value v).frequency w = cat.frequency w := by
  rw [OntologyCategory.add_value]
  by_cases hv : v = ""
  · rw [if_pos hv]
  · rw [if_neg hv]
    exact if_neg h

theorem add_value_freq_self {cat : OntologyCategory} {v : String} (h : v ≠ "") :
    (cat.add_value v).frequency v = cat.frequency v + 1 := by
  rw [OntologyCategory.add_value, if_neg h]
  exact if_pos rfl

theorem add_value_empty (cat : OntologyCategory) : cat.add_value "" = cat := by
  rw [OntologyCategory.add_value, if_pos rfl]

theorem update_clip_functions (m : MasterClipOntology) (c : ClipOntology) :
    (m.update_from_clip c).clip_functions = m.clip_functions.add_value c.clip_function := by
  rw [MasterClipOntology.update_from_clip, updateCorrelations, updateDurationAvg]
  split <;> split <;> rfl

theorem update_averages_ne (m : MasterClipOntology) (c : ClipOntology) {f : String}
    (hne : f ≠ c.clip_function) :
    (m.update_from_clip c).function_duration_averages f =
      m.function_duration_averages f := by
  rw [MasterClipOntology.update_from_clip, updateCorrelations]
  have h1 : ∀ m' : MasterClipOntology, (updateDurationAvg m' c).function_duration_averages f =
      m'.function_duration_averages f := by
    intro m'
    rw [updateDurationAvg]
    split
    · exact if_neg hne
    · rfl
  split
  · exact h1 (updateCategories m c)
  · exact h1 (updateCategories m c)

theorem update_averages_self (m : MasterClipOntology) (c : ClipOntology) (cnt : ℕ)
    (hf : c.clip_function ≠ "") (hd : 0 < c.duration_seconds)
    (hcnt : m.clip_functions.frequency c.clip_function = cnt) :
    (m.update_from_clip c).function_duration_averages c.clip_function =
      match m.function_duration_averages c.clip_function with
      | none => some c.duration_seconds
      | some old_avg =>
        some ((old_avg * ((cnt + 1 - 1 : ℕ) : ℚ) + c.duration_seconds) /
          ((cnt + 1 : ℕ) : ℚ)) := by
  rw [MasterClipOntology.update_from_clip, updateCorrelations]
  have hfreq : (updateCategories m c).clip_functions.frequency c.clip_function = cnt + 1 := by
    show (m.clip_functions.add_value c.clip_function).frequency c.clip_function = cnt + 1
    rw [add_value_freq_self hf, hcnt]
  have havg : (updateCategories m c).function_duration_averages =
      m.function_duration_averages := rfl
  have h1 : (updateDurationAvg (updateCategories m c) c).function_duration_averages
      c.clip_function =
      match m.function_duration_averages c.clip_function with
      | none => some c.duration_seconds
      | some old_avg =>
        some ((old_avg * ((cnt + 1 - 1 : ℕ) : ℚ) + c.duration_seconds) /
          ((cnt + 1 : ℕ) : ℚ)) := by
    rw [updateDurationAvg, if_pos ⟨hf, hd⟩]
    show (if c.clip_function = c.clip_function then _ else _) = _
    rw [if_pos rfl, hfreq, havg, if_neg (by omega : ¬(cnt + 1 = 0))]
  split
  · exact h1
  · exact h1

theorem update_averages_skip (m : MasterClipOntology) (c : ClipOntology)
    (h : ¬(c.clip_function ≠ "" ∧ 0 < c.duration_seconds)) (f : String) :
    (m.update_from_clip c).function_duration_averages f =
      m.function_duration_averages f := by
  rw [MasterClipOntology.update_from_clip, updateCorrelations]
  have h1 : (updateDurationAvg (updateCategories m c) c).function_duration_averages f =
      m.function_duration_averages f := by
    rw [updateDurationAvg, if_neg h]
    rfl
  split
  · exact h1
  · exact h1

theorem update_from_clips_avg_inv (f : String) (hf : f ≠ "") :
    ∀ (L : List ClipOntology) (m : MasterClipOntology) (cnt : ℕ) (s : ℚ),
      (∀ c ∈ L, c.clip_function = f → 0 < c.duration_seconds) →
      m.clip_functions.frequency f = cnt →
      (cnt = 0 → m.function_duration_averages f = none ∧ s = 0) →
      (0 < cnt → m.function_duration_averages f = some (s / (cnt : ℚ))) →
      (m.update_from_clips L).clip_functions.frequency f =
        cnt + (L.filter (fun c => c.clip_function = f)).length ∧
      (cnt + (L.filter (fun c => c.clip_function = f)).length = 0 →
        (m.update_from_clips L).function_duration_averages f = none) ∧
      (0 < cnt + (L.filter (fun c => c.clip_function = f)).length →
        (m.update_from_clips L).function_duration_averages f =
          some ((s + ((L.filter (fun c => c.clip_function = f)).map
              ClipOntology.duration_seconds).sum) /
            ((cnt + (L.filter (fun c => c.clip_function = f)).length : ℕ) : ℚ))) := by
  intro L
  induction L with
  | nil =>
    intro m cnt s _ hcnt h0 hpos'
    refine ⟨by simpa using hcnt, ?_, ?_⟩
    · intro h
      simp at h
      exact ((h0 h).1 : _)
    · intro h
      simp only [List.filter_nil, List.length_nil, List.map_nil, List.sum_nil, add_zero] at h ⊢
      exact hpos' h
  | cons c rest ih =>
    intro m cnt s hpos hcnt h0 havg
    have hfold : m.update_from_clips (c :: rest) =
        (m.update_from_clip c).update_from_clips rest := rfl
    by_cases hc : c.clip_function = f
    · have hd : 0 < c.duration_seconds := hpos c (List.mem_cons_self _ _) hc
      have hf' : c.clip_function ≠ "" := by rw [hc]; exact hf
      have hcnt' : m.clip_functions.frequency c.clip_function = cnt := by rw [hc]; exact hcnt
      have hfreq1 : (m.update_from_clip c).clip_functions.frequency f = cnt + 1 := by
        rw [update_clip_functions, ← hc, add_value_freq_self hf', hcnt']
      have havg1 : (m.update_from_clip c).function_duration_averages f =
          some ((s + c.duration_seconds) / ((cnt + 1 : ℕ) : ℚ)) := by
        have h2 := update_averages_self m c cnt hf' hd hcnt'
        rw [hc] at h2
        rcases Nat.eq_zero_or_pos cnt with h3 | h3
        · obtain ⟨hnone, hs0⟩ := h0 h3
          rw [h2, hnone, h3, hs0]
          norm_num
        · rw [h2, havg h3]
          have hcne : ((cnt : ℕ) : ℚ) ≠ 0 := by
            exact_mod_cast Nat.pos_iff_ne_zero.mp h3
          congr 1
          have he : ((cnt + 1 - 1 : ℕ) : ℚ) = (cnt : ℚ) := by norm_num
          rw [he]
          field_simp
      have hres := ih (m.update_from_clip c) (cnt + 1) (s + c.duration_seconds)
        (fun x hx hxf => hpos x (List.mem_cons_of_mem _ hx) hxf) hfreq1
        (fun h => absurd h (by omega)) (fun _ => havg1)
      have hfilter : (c :: rest).filter (fun x => decide (x.clip_function = f)) =
          c :: rest.filter (fun x => decide (x.clip_function = f)) := by
        rw [List.filter_cons_of_pos (by simpa using hc)]
      rw [hfold, hfilter]
      refine ⟨?_, ?_, ?_⟩
      · rw [hres.1]
        simp only [List.length_cons]
        omega
      · intro h
        simp only [List.length_cons] at h
        exact absurd h (by omega)
      · intro _
        have hlen : 0 < cnt + 1 + (rest.filter
            (fun x => decide (x.clip_function = f))).length := by omega
        have hval := hres.2.2 hlen
        rw [hval]
        simp only [List.map_cons, List.sum_cons, List.length_cons]
        congr 1
        have hn : cnt + 1 + (rest.filter
            (fun x => decide (x.clip_function = f))).length =
            cnt + ((rest.filter (fun x => decide (x.clip_function = f))).length + 1) := by
          omega
        rw [hn]
        ring
    · have hfreq1 : (m.update_from_clip c).clip_functions.frequency f =
          m.clip_functions.frequency f := by
        rw [update_clip_functions, add_value_freq_ne (fun h => hc h.symm)]
      have havg1 : (m.update_from_clip c).function_duration_averages f =
          m.function_duration_averages f :=
        update_averages_ne m c (fun h => hc h.symm)
      have hres := ih (m.update_from_clip c) cnt s
        (fun x hx hxf => hpos x (List.mem_cons_of_mem _ hx) hxf)
        (by rw [hfreq1, hcnt])
        (fun h => ⟨by rw [havg1]; exact (h0 h).1, (h0 h).2⟩)
        (fun h => by rw [havg1]; exact havg h)
      have hfilter : (c :: rest).filter (fun x => decide (x.clip_function = f)) =
          rest.filter (fun x => decide (x.clip_function = f)) := by
        rw [List.filter_cons_of_neg (by simpa using hc)]
      rw [hfold, hfilter]
      exact hres

/-- C3 (amended): for a non-empty function name `f`, if every merged Clip
with `clip_function = f` has strictly positive duration, then after folding
any clip list into a fresh master ontology the final
`function_duration_averages[f]` is exactly the arithmetic mean of the
durations of the clips with function `f`, and this final value is the same
for every merge order.  (Clips with `duration_seconds ≤ 0` are skipped by
the average update but still counted by `clip_functions`, which breaks the
mean — hence the positivity hypothesis.) -/
theorem function_duration_running_mean (L : List ClipOntology) (f : String) (hf : f ≠ "")
    (hpos : ∀ c ∈ L, c.clip_function = f → 0 < c.duration_seconds)
    (hne : L.filter (fun c => c.clip_function = f) ≠ []) :
    (MasterClipOntology.empty.update_from_clips L).function_duration_averages f =
      some (((L.filter (fun c => c.clip_function = f)).map
          ClipOntology.duration_seconds).sum /
        (((L.filter (fun c => c.clip_function = f)).length : ℕ) : ℚ)) ∧
    ∀ L2, L.Perm L2 →
      (MasterClipOntology.empty.update_from_clips L2).function_duration_averages f =
        (MasterClipOntology.empty.update_from_clips L).function_duration_averages f := by
  have main : ∀ (L' : List ClipOntology),
      (∀ c ∈ L', c.clip_function = f → 0 < c.duration_seconds) →
      L'.filter (fun c => c.clip_function = f) ≠ [] →
      (MasterClipOntology.empty.update_from_clips L').function_duration_averages f =
        some (((L'.filter (fun c => c.clip_function = f)).map
            ClipOntology.duration_seconds).sum /
          (((L'.filter (fun c => c.clip_function = f)).length : ℕ) : ℚ)) := by
    intro L' hpos' hne'
    have hinv := update_from_clips_avg_inv f hf L' MasterClipOntology.empty 0 0 hpos'
      rfl (fun _ => ⟨rfl, rfl⟩) (fun h => absurd h (by omega))
    have hlen : 0 < (L'.filter (fun c => c.clip_function = f)).length :=
      List.length_pos.mpr hne'
    have := hinv.2.2 (by omega)
    rw [this]
    congr 1
    rw [zero_add, zero_add]
  refine ⟨main L hpos hne, ?_⟩
  intro L2 h2
  have hpos2 : ∀ c ∈ L2, c.clip_function = f → 0 < c.duration_seconds := fun c hc =>
    hpos c (h2.mem_iff.mpr hc)
  have hfperm : (L.filter (fun c => c.clip_function = f)).Perm
      (L2.filter (fun c => c.clip_function = f)) := h2.filter _
  have hne2 : L2.filter (fun c => c.clip_function = f) ≠ [] := by
    intro hcon
    rw [hcon] at hfperm
    exact hne (List.Perm.eq_nil hfperm)
  rw [main L hpos hne, main L2 hpos2 hne2, (hfperm.map ClipOntology.duration_seconds).sum_eq,
    hfperm.length_eq]

/-- Counterexample fixture: a "hook" clip of duration 0 seconds. -/
def c3clip0 : ClipOntology := { clip_function := "hook", duration_seconds := 0 }

/-- Counterexample fixture: a "hook" clip of duration 10 seconds. -/
def c3clip10 : ClipOntology := { clip_function := "hook", duration_seconds := 10 }

/-- Counterexample fixture: a "hook" clip of duration 20 seconds. -/
def c3clip20 : ClipOntology := { clip_function := "hook", duration_seconds := 20 }

/-- C3 (counterexample): merging a zero-duration "hook" clip followed by
10-second and 20-second "hook" clips yields a final average of 40/3, but the
arithmetic mean of the durations of all merged clips with function "hook"
is (0 + 10 + 20) / 3 = 10, and even the mean of the positive durations is
15 — the claim fails as stated.  The zero-duration clip is counted by
`clip_functions` but skipped by the average update. -/
theorem function_duration_mean_counterexample :
    (MasterClipOntology.empty.update_from_clips
        [c3clip0, c3clip10, c3clip20]).function_duration_averages "hook" =
      some (40 / 3) ∧
    ((40 : ℚ) / 3) ≠
      (c3clip0.duration_seconds + c3clip10.duration_seconds + c3clip20.duration_seconds) / 3 ∧
    ((40 : ℚ) / 3) ≠ (c3clip10.duration_seconds + c3clip20.duration_seconds) / 2 := by
  have hskip : ¬(c3clip0.clip_function ≠ "" ∧ 0 < c3clip0.duration_seconds) := by
    rintro ⟨-, hd⟩
    have : ¬((0 : ℚ) < 0) := by norm_num
    exact this hd
  have h1 : (MasterClipOntology.empty.update_from_clip c3clip0).function_duration_averages
      "hook" = none := by
    rw [update_averages_skip MasterClipOntology.empty c3clip0 hskip]
    rfl
  have hfreq1 : (MasterClipOntology.empty.update_from_clip c3clip0).clip_functions.frequency
      "hook" = 1 := by
    rw [update_clip_functions]
    show ((MasterClipOntology.empty.clip_functions).add_value "hook").frequency "hook" = 1
    rw [add_value_freq_self (by decide)]
    rfl
  set m1 := MasterClipOntology.empty.update_from_clip c3clip0 with hm1
  have h2 := update_averages_self m1 c3clip10 1 (by decide)
    (by show (0 : ℚ) < 10; norm_num) hfreq1
  have hcf10 : c3clip10.clip_function = "hook" := rfl
  rw [hcf10, h1] at h2
  have hfreq2 : (m1.update_from_clip c3clip10).clip_functions.frequency "hook" = 2 := by
    rw [update_clip_functions]
    show ((m1.clip_functions).add_value "hook").frequency "hook" = 2
    rw [add_value_freq_self (by decide), hfreq1]
  set m2 := m1.update_from_clip c3clip10 with hm2
  have h3 := update_averages_self m2 c3clip20 2 (by decide)
    (by show (0 : ℚ) < 20; norm_num) hfreq2
  have hcf20 : c3clip20.clip_function = "hook" := rfl
  rw [hcf20, h2] at h3
  refine ⟨?_, ?_, ?_⟩
  · show (m2.update_from_clip c3clip20).function_duration_averages "hook" = some (40 / 3)
    rw [h3]
    show some (((10 : ℚ) * (((2 + 1 - 1 : ℕ)) : ℚ) + 20) / (((2 + 1 : ℕ)) : ℚ)) = some (40 / 3)
    norm_num
  · show (40 : ℚ) / 3 ≠ (0 + 10 + 20) / 3
    norm_num
  · show (40 : ℚ) / 3 ≠ (10 + 20) / 2
    norm_num

/-- Witness for C3: two positive-duration "hook" clips merged in both orders
give the true mean 15. -/
theorem function_duration_running_mean_witness :
    ("hook" : String) ≠ "" ∧
    (MasterClipOntology.empty.update_from_clips
        [c3clip10, c3clip20]).function_duration_averages "hook" =
      some ((([c3clip10, c3clip20].filter
          (fun c => c.clip_function = "hook")).map ClipOntology.duration_seconds).sum /
        ((([c3clip10, c3clip20].filter
          (fun c => c.clip_function = "hook")).length : ℕ) : ℚ)) ∧
    (MasterClipOntology.empty.update_from_clips
        [c3clip20, c3clip10]).function_duration_averages "hook" =
      (MasterClipOntology.empty.update_from_clips
        [c3clip10, c3clip20]).function_duration_averages "hook" :=
  ⟨by decide,
    (function_duration_running_mean [c3clip10, c3clip20] "hook" (by decide)
      (by intro c hc _
          rcases List.mem_cons.mp hc with h | h
          · rw [h]; show (0 : ℚ) < 10; norm_num
          · rw [List.mem_singleton.mp h]; show (0 : ℚ) < 20; norm_num)
      (by decide)).1,
    (function_duration_running_mean [c3clip10, c3clip20] "hook" (by decide)
      (by intro c hc _
          rcases List.mem_cons.mp hc with h | h
          · rw [h]; show (0 : ℚ) < 10; norm_num
          · rw [List.mem_singleton.mp h]; show (0 : ℚ) < 20; norm_num)
      (by decide)).2 [c3clip20, c3clip10] (List.Perm.swap c3clip20 c3clip10 [])⟩

theorem update_shot_types (m : MasterClipOntology) (c : ClipOntology) :
    (m.update_from_clip c).shot_types = m.shot_types.add_value c.shot_type := by
  rw [MasterClipOntology.update_from_clip, updateCorrelations, updateDurationAvg]
  split <;> split <;> rfl

theorem update_camera_angles (m : MasterClipOntology) (c : ClipOntology) :
    (m.update_from_clip c).camera_angles = m.camera_angles.add_value c.camera_angle := by
  rw [MasterClipOntology.update_from_clip, updateCorrelations, updateDurationAvg]
  split <;> split <;> rfl

theorem update_camera_movements (m : MasterClipOntology) (c : ClipOntology) :
    (m.update_from_clip c).camera_movements = m.camera_movements.add_value c.camera_movement := by
  rw [MasterClipOntology.update_from_clip, updateCorrelations, updateDurationAvg]
  split <;> split <;> rfl

theorem update_compositions (m : MasterClipOntology) (c : ClipOntology) :
    (m.update_from_clip c).compositions = m.compositions.add_value c.composition := by
  rw [MasterClipOntology.update_from_clip, updateCorrelations, updateDurationAvg]
  split <;> split <;> rfl

theorem update_setting_types (m : MasterClipOntology) (c : ClipOntology) :
    (m.update_from_clip c).setting_types = m.setting_types.add_value c.setting_type := by
  rw [MasterClipOntology.update_from_clip, updateCorrelations, updateDurationAvg]
  split <;> split <;> rfl

theorem update_lighting_styles (m : MasterClipOntology) (c : ClipOntology) :
    (m.update_from_clip c).lighting_styles = m.lighting_styles.add_value c.lighting_style := by
  rw [MasterClipOntology.update_from_clip, updateCorrelations, updateDurationAvg]
  split <;> split <;> rfl

theorem update_color_moods (m : MasterClipOntology) (c : ClipOntology) :
    (m.update_from_clip c).color_moods = m.color_moods.add_value c.color_mood := by
  rw [MasterClipOntology.update_from_clip, updateCorrelations, updateDurationAvg]
  split <;> split <;> rfl

theorem update_subject_types (m : MasterClipOntology) (c : ClipOntology) :
    (m.update_from_clip c).subject_types = m.subject_types.add_value c.subject_type := by
  rw [MasterClipOntology.update_from_clip, updateCorrelations, updateDurationAvg]
  split <;> split <;> rfl

theorem update_subject_actions (m : MasterClipOntology) (c : ClipOntology) :
    (m.update_from_clip c).subject_actions = m.subject_actions.add_value c.subject_action := by
  rw [MasterClipOntology.update_from_clip, updateCorrelations, updateDurationAvg]
  split <;> split <;> rfl

theorem update_text_purposes (m : MasterClipOntology) (c : ClipOntology) :
    (m.update_from_clip c).text_purposes = m.text_purposes.add_value c.text_purpose := by
  rw [MasterClipOntology.update_from_clip, updateCorrelations, updateDurationAvg]
  split <;> split <;> rfl

theorem update_emotional_intensities (m : MasterClipOntology) (c : ClipOntology) :
    (m.update_from_clip c).emotional_intensities = m.emotional_intensities.add_value c.emotional_intensity := by
  rw [MasterClipOntology.update_from_clip, updateCorrelations, updateDurationAvg]
  split <;> split <;> rfl

theorem update_narrative_roles (m : MasterClipOntology) (c : ClipOntology) :
    (m.update_from_clip c).narrative_roles = m.narrative_roles.add_value c.narrative_role := by
  rw [MasterClipOntology.update_from_clip, updateCorrelations, updateDurationAvg]
  split <;> split <;> rfl

theorem update_persuasion_mechanisms (m : MasterClipOntology) (c : ClipOntology) :
    (m.update_from_clip c).persuasion_mechanisms = m.persuasion_mechanisms.add_value c.persuasion_mechanism := by
  rw [MasterClipOntology.update_from_clip, updateCorrelations, updateDurationAvg]
  split <;> split <;> rfl

theorem update_emotions (m : MasterClipOntology) (c : ClipOntology) :
    (m.update_from_clip c).emotions =
      (m.emotions.add_value c.primary_emotion).add_value c.secondary_emotion := by
  rw [MasterClipOntology.update_from_clip, updateCorrelations, updateDurationAvg]
  split <;> split <;> rfl

theorem update_transition_types (m : MasterClipOntology) (c : ClipOntology) :
    (m.update_from_clip c).transition_types =
      (m.transition_types.add_value c.transition_in).add_value c.transition_out := by
  rw [MasterClipOntology.update_from_clip, updateCorrelations, updateDurationAvg]
  split <;> split <;> rfl

/-! ### C7: merging the same clip twice into a fresh master ontology -/

/-- Merging the same clip twice into a fresh `MasterClipOntology`
(the scenario of the repetition-additivity law). -/
def mergeTwice (clip : ClipOntology) : MasterClipOntology :=
  (MasterClipOntology.empty.update_from_clip clip).update_from_clip clip

/-- Adding the same non-empty value twice raises its frequency by exactly 2. -/
theorem double_add_freq (cat : OntologyCategory) (v : String) (hv : v ≠ "") :
    ((cat.add_value v).add_value v).frequency v = cat.frequency v + 2 := by
  rw [add_value_freq_self hv, add_value_freq_self hv]

/-- In a category receiving the value pair (p, s) twice (as `emotions` and
`transition_types` do), p gains exactly 2 provided s is empty or differs
from p. -/
theorem double_pair_freq_fst (cat : OntologyCategory) (p s : String) (hp : p ≠ "")
    (hps : s = "" ∨ s ≠ p) :
    ((((cat.add_value p).add_value s).add_value p).add_value s).frequency p =
      cat.frequency p + 2 := by
  rcases hps with hs | hs
  · rw [hs, add_value_empty, add_value_empty, add_value_freq_self hp,
      add_value_freq_self hp]
  · rw [add_value_freq_ne (Ne.symm hs), add_value_freq_self hp,
      add_value_freq_ne (Ne.symm hs), add_value_freq_self hp]

/-- In a category receiving the value pair (p, s) twice, s gains exactly 2
provided it is non-empty and differs from p. -/
theorem double_pair_freq_snd (cat : OntologyCategory) (p s : String) (hs0 : s ≠ "")
    (hps : s ≠ p) :
    ((((cat.add_value p).add_value s).add_value p).add_value s).frequency s =
      cat.frequency s + 2 := by
  rw [add_value_freq_self hs0, add_value_freq_ne hps, add_value_freq_self hs0,
    add_value_freq_ne hps]

/-- C7 (corrected): merging the same clip twice into a fresh master ontology
gives every non-empty categorical attribute value the clip contributes a
frequency count of exactly 2, PROVIDED the clip's secondary emotion does not
repeat its primary emotion and its outgoing transition does not repeat its
incoming transition. Without that proviso the claim fails: a repeated value
is added twice per merge and reaches 4 (see `merge_twice_counterexample`). -/
theorem merge_twice_counts (clip : ClipOntology)
    (hsec : clip.secondary_emotion = "" ∨ clip.secondary_emotion ≠ clip.primary_emotion)
    (htr : clip.transition_out = "" ∨ clip.transition_out ≠ clip.transition_in) :
    (clip.shot_type ≠ "" →
      (mergeTwice clip).shot_types.frequency clip.shot_type = 2) ∧
    (clip.camera_angle ≠ "" →
      (mergeTwice clip).camera_angles.frequency clip.camera_angle = 2) ∧
    (clip.camera_movement ≠ "" →
      (mergeTwice clip).camera_movements.frequency clip.camera_movement = 2) ∧
    (clip.composition ≠ "" →
      (mergeTwice clip).compositions.frequency clip.composition = 2) ∧
    (clip.setting_type ≠ "" →
      (mergeTwice clip).setting_types.frequency clip.setting_type = 2) ∧
    (clip.lighting_style ≠ "" →
      (mergeTwice clip).lighting_styles.frequency clip.lighting_style = 2) ∧
    (clip.color_mood ≠ "" →
      (mergeTwice clip).color_moods.frequency clip.color_mood = 2) ∧
    (clip.subject_type ≠ "" →
      (mergeTwice clip).subject_types.frequency clip.subject_type = 2) ∧
    (clip.subject_action ≠ "" →
      (mergeTwice clip).subject_actions.frequency clip.subject_action = 2) ∧
    (clip.text_purpose ≠ "" →
      (mergeTwice clip).text_purposes.frequency clip.text_purpose = 2) ∧
    (clip.emotional_intensity ≠ "" →
      (mergeTwice clip).emotional_intensities.frequency clip.emotional_intensity = 2) ∧
    (clip.clip_function ≠ "" →
      (mergeTwice clip).clip_functions.frequency clip.clip_function = 2) ∧
    (clip.narrative_role ≠ "" →
      (mergeTwice clip).narrative_roles.frequency clip.narrative_role = 2) ∧
    (clip.persuasion_mechanism ≠ "" →
      (mergeTwice clip).persuasion_mechanisms.frequency clip.persuasion_mechanism = 2) ∧
    (clip.primary_emotion ≠ "" →
      (mergeTwice clip).emotions.frequency clip.primary_emotion = 2) ∧
    (clip.secondary_emotion ≠ "" →
      (mergeTwice clip).emotions.frequency clip.secondary_emotion = 2) ∧
    (clip.transition_in ≠ "" →
      (mergeTwice clip).transition_types.frequency clip.transition_in = 2) ∧
    (clip.transition_out ≠ "" →
      (mergeTwice clip).transition_types.frequency clip.transition_out = 2) := by
  refine ⟨?_, ?_, ?_, ?_, ?_, ?_, ?_, ?_, ?_, ?_, ?_, ?_, ?_, ?_, ?_, ?_, ?_, ?_⟩
  · intro h
    rw [mergeTwice, update_shot_types, update_shot_types, double_add_freq _ _ h]
    rfl
  · intro h
    rw [mergeTwice, update_camera_angles, update_camera_angles, double_add_freq _ _ h]
    rfl
  · intro h
    rw [mergeTwice, update_camera_movements, update_camera_movements, double_add_freq _ _ h]
    rfl
  · intro h
    rw [mergeTwice, update_compositions, update_compositions, double_add_freq _ _ h]
    rfl
  · intro h
    rw [mergeTwice, update_setting_types, update_setting_types, double_add_freq _ _ h]
    rfl
  · intro h
    rw [mergeTwice, update_lighting_styles, update_lighting_styles, double_add_freq _ _ h]
    rfl
  · intro h
    rw [mergeTwice, update_color_moods, update_color_moods, double_add_freq _ _ h]
    rfl
  · intro h
    rw [mergeTwice, update_subject_types, update_subject_types, double_add_freq _ _ h]
    rfl
  · intro h
    rw [mergeTwice, update_subject_actions, update_subject_actions, double_add_freq _ _ h]
    rfl
  · intro h
    rw [mergeTwice, update_text_purposes, update_text_purposes, double_add_freq _ _ h]
    rfl
  · intro h
    rw [mergeTwice, update_emotional_intensities, update_emotional_intensities, double_add_freq _ _ h]
    rfl
  · intro h
    rw [mergeTwice, update_clip_functions, update_clip_functions, double_add_freq _ _ h]
    rfl
  · intro h
    rw [mergeTwice, update_narrative_roles, update_narrative_roles, double_add_freq _ _ h]
    rfl
  · intro h
    rw [mergeTwice, update_persuasion_mechanisms, update_persuasion_mechanisms, double_add_freq _ _ h]
    rfl
  · intro hp
    rw [mergeTwice, update_emotions, update_emotions,
      double_pair_freq_fst _ _ _ hp hsec]
    rfl
  · intro hs0
    rcases hsec with he | hne
    · exact absurd he hs0
    · rw [mergeTwice, update_emotions, update_emotions,
        double_pair_freq_snd _ _ _ hs0 hne]
      rfl
  · intro hti
    rw [mergeTwice, update_transition_types, update_transition_types,
      double_pair_freq_fst _ _ _ hti htr]
    rfl
  · intro hto
    rcases htr with he | hne
    · exact absurd he hto
    · rw [mergeTwice, update_transition_types, update_transition_types,
        double_pair_freq_snd _ _ _ hto hne]
      rfl

/-- A clip whose secondary emotion repeats its primary emotion — a non-empty
categorical attribute value it contributes. -/
def c7dup : ClipOntology := { primary_emotion := "joy", secondary_emotion := "joy" }

/-- C7 counterexample: the clip `c7dup` contributes the non-empty value "joy"
(as both primary and secondary emotion); merging it twice into a fresh master
ontology leaves `emotions.frequency "joy" = 4`, not 2 — `update_from_clip`
adds both emotion fields to the same category, so a repeated value is counted
twice per merge. -/
theorem merge_twice_counterexample :
    c7dup.primary_emotion = "joy" ∧ c7dup.secondary_emotion = "joy" ∧
    (mergeTwice c7dup).emotions.frequency "joy" = 4 ∧ (4 : ℕ) ≠ 2 := by
  refine ⟨rfl, rfl, ?_, by decide⟩
  have hj : c7dup.primary_emotion = "joy" := rfl
  have hs : c7dup.secondary_emotion = "joy" := rfl
  rw [mergeTwice, update_emotions, update_emotions, hj, hs,
    add_value_freq_self (by decide), add_value_freq_self (by decide),
    add_value_freq_self (by decide), add_value_freq_self (by decide)]
  rfl

/-- A clip with pairwise-distinct non-empty categorical attributes. -/
def c7w : ClipOntology :=
  { shot_type := "wide", camera_angle := "low", camera_movement := "pan",
    composition := "rule_of_thirds", setting_type := "indoor",
    lighting_style := "soft", color_mood := "warm", subject_type := "person",
    subject_action := "talking", text_purpose := "hook_text",
    primary_emotion := "joy", secondary_emotion := "calm",
    emotional_intensity := "high", clip_function := "hook",
    narrative_role := "setup", persuasion_mechanism := "social_proof",
    transition_in := "cut", transition_out := "fade" }

/-- C7 witness: the corrected double-merge law instantiated at the concrete
clip `c7w`, whose emotions and transitions are pairwise distinct; its
shot_type "wide" ends with frequency exactly 2. -/
theorem merge_twice_counts_witness :
    (c7w.secondary_emotion = "" ∨ c7w.secondary_emotion ≠ c7w.primary_emotion) ∧
    (c7w.transition_out = "" ∨ c7w.transition_out ≠ c7w.transition_in) ∧
    c7w.shot_type ≠ "" ∧
    (mergeTwice c7w).shot_types.frequency c7w.shot_type = 2 :=
  ⟨Or.inr (by decide), Or.inr (by decide), by decide,
    (merge_twice_counts c7w (Or.inr (by decide)) (Or.inr (by decide))).1 (by decide)⟩

/-! ### C8: get_top_values ordering -/

/-- A category that saw "a" first and then "b", each once. -/
def c8cat : OntologyCategory := ((emptyCategory "shot_types").add_value "a").add_value "b"

/-- C8 counterexample: `c8cat` stores ["a", "b"] in first-seen order with equal
frequencies, but `sorted` is applied to the Python `set` of values, whose
iteration order is unspecified; under the legitimate set enumeration
["b", "a"] the stable sort keeps the tie in enumeration order, so the report
lists ["b", "a"], not the first-seen order ["a", "b"]. -/
theorem get_top_values_tie_counterexample :
    c8cat.values = ["a", "b"] ∧
    List.Perm ["b", "a"] c8cat.values ∧
    c8cat.frequency "a" = c8cat.frequency "b" ∧
    c8cat.get_top_values ["b", "a"] 20 = ["b", "a"] ∧
    (["b", "a"] : List String) ≠ ["a", "b"] := by
  refine ⟨by decide, ?_, by decide, by decide, by decide⟩
  rw [show c8cat.values = ["a", "b"] by decide]
  exact List.Perm.swap "a" "b" []

/-- C8 (corrected): `get_top_values` renders values sorted by descending
frequency, truncated to at most n, drawn from (and leaving intact) the stored
values; the sort is stable with respect to the order `enum` in which the
Python `set` happens to enumerate the stored values — which is unspecified —
so ties are broken by set-enumeration order, not by first-seen insertion
order (see `get_top_values_tie_counterexample`). -/
theorem get_top_values_spec (cat : OntologyCategory) (enum : List String) (n : ℕ)
    (henum : enum.Perm cat.values) :
    List.Pairwise (fun a b => cat.frequency b ≤ cat.frequency a)
      (cat.get_top_values enum n) ∧
    (cat.get_top_values enum n).length = min n cat.values.length ∧
    (∀ v ∈ cat.get_top_values enum n, v ∈ cat.values) ∧
    (∀ u v : String, cat.frequency v ≤ cat.frequency u → List.Sublist [u, v] enum →
      List.Sublist [u, v] (cat.get_top_values enum enum.length)) := by
  haveI htot : IsTotal String (fun a b => cat.frequency b ≤ cat.frequency a) :=
    ⟨fun a b => Nat.le_total (cat.frequency b) (cat.frequency a)⟩
  haveI htr : IsTrans String (fun a b => cat.frequency b ≤ cat.frequency a) :=
    ⟨fun _ _ _ h1 h2 => Nat.le_trans h2 h1⟩
  refine ⟨?_, ?_, ?_, ?_⟩
  · have hsorted := List.sorted_insertionSort
      (fun a b => cat.frequency b ≤ cat.frequency a) enum
    exact List.Pairwise.sublist (List.take_sublist _ _) hsorted
  · rw [OntologyCategory.get_top_values, List.length_take,
      List.length_insertionSort, henum.length_eq]
  · intro v hv
    simp only [OntologyCategory.get_top_values] at hv
    exact henum.mem_iff.mp ((List.mem_insertionSort _).mp (List.mem_of_mem_take hv))
  · intro u v huv hsub
    have h := @List.pair_sublist_insertionSort String
      (fun a b => cat.frequency b ≤ cat.frequency a) _ u v enum huv hsub
    rw [OntologyCategory.get_top_values,
      List.take_of_length_le (le_of_eq (List.length_insertionSort _ _))]
    exact h

/-- C8 witness: the corrected report law at the concrete category `c8cat`
under the set enumeration ["b", "a"]: the rendered list is frequency-sorted,
complete (both stored values shown, none dropped at n = 20), and the tie
["b", "a"] of the enumeration is preserved. -/
theorem get_top_values_spec_witness :
    (["b", "a"] : List String).Perm c8cat.values ∧
    List.Pairwise (fun a b => c8cat.frequency b ≤ c8cat.frequency a)
      (c8cat.get_top_values ["b", "a"] 20) ∧
    (c8cat.get_top_values ["b", "a"] 20).length = min 20 c8cat.values.length ∧
    (∀ v ∈ c8cat.get_top_values ["b", "a"] 20, v ∈ c8cat.values) ∧
    List.Sublist ["b", "a"] (c8cat.get_top_values ["b", "a"] (["b", "a"] : List String).length) :=
  have hperm : (["b", "a"] : List String).Perm c8cat.values := by
    rw [show c8cat.values = ["a", "b"] by decide]
    exact List.Perm.swap "a" "b" []
  ⟨hperm,
    (get_top_values_spec c8cat ["b", "a"] 20 hperm).1,
    (get_top_values_spec c8cat ["b", "a"] 20 hperm).2.1,
    (get_top_values_spec c8cat ["b", "a"] 20 hperm).2.2.1,
    (get_top_values_spec c8cat ["b", "a"] 20 hperm).2.2.2 "b" "a" (by decide) (by decide)⟩

/-! ### Playbook insertion (script_clip_brain.py) -/

/-- Python `str.lower()` on the ASCII range: lowercase A-Z, leave everything
else unchanged. -/
def pyLowerChar (c : Char) : Char :=
  if 'A' ≤ c ∧ c ≤ 'Z' then Char.ofNat (c.toNat + 32) else c

/-- Python `str.lower()` applied characterwise. -/
def pyLower (s : String) : String := String.mk (s.data.map pyLowerChar)

/-- The example dict built by `learn_from_clip` (script_clip_brain.py:89-100),
with the source's `.get(..., default)` defaults. -/
structure PlaybookExample where
  script : String := ""
  clip_type : String := ""
  visual_description : String := ""
  setting : String := ""
  setting_type : String := ""
  subject_type : String := ""
  subject_action : String := ""
  text_on_screen : List String := []
  shot_type : String := ""
  function : String := ""
deriving DecidableEq, Inhabited, Repr

/-- `_is_duplicate` (script_clip_brain.py:177-185): lower-case the candidate's
script; an empty script is never a duplicate; otherwise it is a duplicate iff
some stored example has the same lower-cased script. -/
def is_duplicate (e : PlaybookExample) (examples : List PlaybookExample) : Bool :=
  if pyLower e.script = "" then false
  else examples.any (fun ex => pyLower ex.script == pyLower e.script)

/-- The per-key insertion step of `learn_from_clip`
(script_clip_brain.py:107-110, identically 115-117): with fewer than 50
entries stored under the key, append the example unless `_is_duplicate`
rejects it; at 50 entries do nothing. -/
def insertExample (examples : List PlaybookExample) (e : PlaybookExample) :
    List PlaybookExample :=
  if examples.length < 50 then
    if is_duplicate e examples then examples else examples ++ [e]
  else examples

/-- Folding `insertExample` over examples whose lower-cased scripts are
pairwise distinct appends them in order, up to the remaining capacity of the
accumulator. -/
theorem foldl_insertExample_nodup (es : List PlaybookExample) :
    ∀ acc : List PlaybookExample,
      (((acc ++ es).map (fun e => pyLower e.script)).Nodup) →
      List.foldl insertExample acc es = acc ++ es.take (50 - acc.length) := by
  induction es with
  | nil => intro acc _; simp
  | cons e es ih =>
    intro acc hnd
    have hdisj : (acc.map (fun x => pyLower x.script)).Disjoint
        ((e :: es).map (fun x => pyLower x.script)) :=
      (List.nodup_append.mp (by rwa [List.map_append] at hnd)).2.2
    have hne : ∀ ex ∈ acc, pyLower ex.script ≠ pyLower e.script := by
      intro ex hex heq
      exact hdisj (List.mem_map_of_mem _ hex)
        (by rw [heq]; exact List.mem_map_of_mem _ (List.mem_cons_self e es))
    have hdup : is_duplicate e acc = false := by
      rw [is_duplicate]
      split
      · rfl
      · rw [List.any_eq_false]
        intro ex hex
        simp only [beq_iff_eq]
        exact hne ex hex
    by_cases hlen : acc.length < 50
    · have hnd1 : (((acc ++ [e]) ++ es).map (fun x => pyLower x.script)).Nodup := by
        rwa [List.append_assoc, List.singleton_append]
      rw [List.foldl_cons, insertExample, if_pos hlen, hdup,
        if_neg Bool.false_ne_true, ih (acc ++ [e]) hnd1]
      have h50 : 50 - acc.length = (50 - (acc ++ [e]).length) + 1 := by
        simp only [List.length_append, List.length_cons, List.length_nil]
        omega
      rw [h50, List.take_succ_cons, List.append_assoc, List.singleton_append]
    · have hnd2 : ((acc ++ es).map (fun x => pyLower x.script)).Nodup := by
        refine List.Nodup.sublist (List.Sublist.map _ ?_) hnd
        exact List.Sublist.append_left (List.sublist_cons_self e es) acc
      have h0 : 50 - acc.length = 0 := by omega
      rw [List.foldl_cons, insertExample, if_neg hlen, ih acc hnd2, h0]
      simp

/-- Two playbook entries with empty (hence trivially case-insensitively
equal) script texts. -/
def c6e1 : PlaybookExample := { clip_type := "broll" }

/-- Second empty-script entry (differing in other fields). -/
def c6e2 : PlaybookExample := { clip_type := "other" }

/-- 51 entries whose script texts are pairwise distinct as strings, but
"A"/"a" and "B"/"b" coincide case-insensitively. -/
def c6cs : List PlaybookExample :=
  ({ script := "A" } : PlaybookExample) :: ({ script := "a" } : PlaybookExample) ::
  ({ script := "B" } : PlaybookExample) :: ({ script := "b" } : PlaybookExample) ::
  (List.range 47).map (fun i => { script := String.mk (natChars i) })

/-- C6 counterexample: (a) two entries with case-insensitively equal (empty)
scripts are BOTH stored — `_is_duplicate` returns False for an empty script,
so the claimed "exactly one stored entry" fails; (b) 51 entries with
pairwise-distinct script texts can end at 49 stored entries, not 50 — two
case-insensitive collisions ("A"/"a", "B"/"b") are deduplicated even though
all 51 script texts are distinct. -/
theorem playbook_dedup_counterexample :
    (pyLower c6e1.script = pyLower c6e2.script ∧
      insertExample (insertExample [] c6e1) c6e2 = [c6e1, c6e2] ∧
      (insertExample (insertExample [] c6e1) c6e2).length = 2 ∧ (2 : ℕ) ≠ 1) ∧
    ((c6cs.map PlaybookExample.script).Nodup ∧ c6cs.length = 51 ∧
      (List.foldl insertExample [] c6cs).length = 49 ∧ (49 : ℕ) ≠ 50) := by
  set_option maxRecDepth 4000 in decide

/-- C6 (corrected): per playbook key, (i) inserting two entries whose
NON-EMPTY script texts are equal under case-insensitive comparison stores
exactly one entry (empty scripts are exempt from dedup — see
`playbook_dedup_counterexample`); (ii) inserting a sequence of entries whose
scripts are pairwise distinct CASE-INSENSITIVELY stores exactly the first 50,
silently dropping the rest (distinctness of the raw texts is not enough);
(iii) no insertion ever removes a stored entry: the previously stored list is
always a prefix of the result. -/
theorem playbook_insert_spec :
    (∀ e1 e2 : PlaybookExample, pyLower e1.script ≠ "" →
      pyLower e2.script = pyLower e1.script →
      insertExample (insertExample [] e1) e2 = [e1]) ∧
    (∀ es : List PlaybookExample,
      (es.map (fun e => pyLower e.script)).Nodup →
      List.foldl insertExample [] es = es.take 50) ∧
    (∀ (l : List PlaybookExample) (e : PlaybookExample),
      (insertExample l e).take l.length = l) := by
  refine ⟨?_, ?_, ?_⟩
  · intro e1 e2 h1 h12
    have hstep1 : insertExample [] e1 = [e1] := by
      rw [insertExample, if_pos (by decide : ([] : List PlaybookExample).length < 50)]
      have hd : is_duplicate e1 [] = false := by
        rw [is_duplicate]; split <;> rfl
      rw [hd, if_neg Bool.false_ne_true, List.nil_append]
    have hdup2 : is_duplicate e2 [e1] = true := by
      rw [is_duplicate, if_neg (by rw [h12]; exact h1)]
      simp [h12]
    rw [hstep1, insertExample, if_pos (by simp : [e1].length < 50), hdup2,
      if_pos rfl]
  · intro es hnd
    have h := foldl_insertExample_nodup es [] (by rwa [List.nil_append])
    rw [List.nil_append] at h
    exact h
  · intro l e
    rw [insertExample]
    split
    · split
      · exact List.take_length l
      · exact List.take_left l [e]
    · exact List.take_length l

/-- An entry with script "Hello World". -/
def c6a : PlaybookExample := { script := "Hello World" }

/-- An entry with script "hello world" — case-insensitively equal to c6a. -/
def c6b : PlaybookExample := { script := "hello world" }

/-- 51 entries with pairwise case-insensitively distinct scripts
("0", "1", ..., "50"). -/
def c6es : List PlaybookExample :=
  (List.range 51).map (fun i => { script := String.mk (natChars i) })

/-- C6 witness: the corrected playbook law at concrete inputs — the
case-colliding pair ("Hello World", "hello world") stores one entry; the 51
case-insensitively distinct entries `c6es` store exactly the first 50; and an
insertion into [c6a] leaves the stored [c6a] in place. -/
theorem playbook_insert_spec_witness :
    pyLower c6a.script ≠ "" ∧
    pyLower c6b.script = pyLower c6a.script ∧
    insertExample (insertExample [] c6a) c6b = [c6a] ∧
    (c6es.map (fun e => pyLower e.script)).Nodup ∧
    c6es.length = 51 ∧
    List.foldl insertExample [] c6es = c6es.take 50 ∧
    (c6es.take 50).length = 50 ∧
    (insertExample [c6a] c6b).take 1 = [c6a] :=
  ⟨by decide, by decide,
    playbook_insert_spec.1 c6a c6b (by decide) (by decide),
    by decide, by decide,
    playbook_insert_spec.2.1 c6es (by decide),
    by decide,
    playbook_insert_spec.2.2 [c6a] c6b⟩
